import Mathlib

/-!
Verification of the tlb cooperative stackful-coroutine scheduler
(`src/coroutine.c`, `src/server.c`) against its natural-language
specification.

The development is a shallow embedding: each C function that the claims
touch is translated into a Lean definition over explicit state, and the
claims are settled as theorems about those definitions.

The repository headers (`coroutine.h`, `tlb_server.h`) are not part of
the provided sources; the constants and the one inline function they
define (`coroutine_yield`) are modelled from the specification and are
marked as such in their doc comments.
-/

namespace Tlb

/-! ## Constants of the stack layout

`coroutine.h` is not among the provided sources, so the numeric
constants are modelled from the specification. -/

/-- Modelled from the spec: `sizeof(ulong)` on the 64-bit target the code
is written for (the stack layout in §6.4 is given in words). -/
def WORD : Nat := 8

/-- Modelled from the spec: `COROUTINE_STACK_SHIFT` from the missing
`coroutine.h`.  §6.4 requires `STACK_SIZE` to be a power of two; the
creation-time check in `coroutine.c` tests alignment to
`COROUTINE_PAGE_SIZE`, so the stack is one 4 KiB page: shift 12. -/
def COROUTINE_STACK_SHIFT : Nat := 12

/-- `COROUTINE_STACK_SIZE = 1 << COROUTINE_STACK_SHIFT` (4096). -/
def COROUTINE_STACK_SIZE : Nat := 2 ^ COROUTINE_STACK_SHIFT

/-- Modelled from the spec: `COROUTINE_PAGE_SIZE` from the missing
`coroutine.h`; a 4 KiB page. -/
def COROUTINE_PAGE_SIZE : Nat := 4096

/-- Modelled from the spec: the coroutine magic sentinel from the missing
`coroutine.h`.  Only its identity matters, never its value. -/
def COROUTINE_MAGIC : Nat := 0xC0C0C0C0

/-- Modelled from the spec: stack-bottom sentinel from the missing
`coroutine.h`. -/
def COROUTINE_STACK_BOTTOM_MAGIC : Nat := 0xB0B0B0B0

/-- Modelled from the spec: stack-top sentinel from the missing
`coroutine.h`. -/
def COROUTINE_STACK_TOP_MAGIC : Nat := 0xD0D0D0D0

/-! ## Stack-pointer masking (`coroutine_trampoline`, src/coroutine.c:65-69)

The trampoline recovers the stack base from the current stack pointer:
`stack = (rsp >> COROUTINE_STACK_SHIFT) << COROUTINE_STACK_SHIFT`, and
reads the coroutine self-pointer from
`stack + COROUTINE_STACK_SIZE - 2*sizeof(ulong)`.
Memory is modelled as a word-valued map from byte addresses. -/

/-- The mask applied by `coroutine_trampoline` (src/coroutine.c:66). -/
def trampolineStackBase (rsp : Nat) : Nat :=
  (rsp >>> COROUTINE_STACK_SHIFT) <<< COROUTINE_STACK_SHIFT

/-- The self-pointer load of `coroutine_trampoline` (src/coroutine.c:69):
`*(ulong*)(stack + COROUTINE_STACK_SIZE - 2*sizeof(ulong))`. -/
def trampolineSelf (mem : Nat → Nat) (rsp : Nat) : Nat :=
  mem (trampolineStackBase rsp + COROUTINE_STACK_SIZE - 2 * WORD)

/-- The alignment check of `coroutine_create` (src/coroutine.c:22):
`BUG_ON((ulong)co->stack & (COROUTINE_PAGE_SIZE - 1))` passes iff this
is zero. -/
def createAlignCheck (stackAddr : Nat) : Nat :=
  stackAddr &&& (COROUTINE_PAGE_SIZE - 1)

theorem stackBase_of_aligned {base p : Nat}
    (halign : base % COROUTINE_STACK_SIZE = 0)
    (hlo : base ≤ p) (hhi : p < base + COROUTINE_STACK_SIZE) :
    trampolineStackBase p = base := by
  unfold trampolineStackBase COROUTINE_STACK_SIZE at *
  rw [Nat.shiftRight_eq_div_pow, Nat.shiftLeft_eq]
  obtain ⟨q, rfl⟩ := Nat.dvd_of_mod_eq_zero halign
  have h1 : 2 ^ COROUTINE_STACK_SHIFT * q / 2 ^ COROUTINE_STACK_SHIFT = q :=
    Nat.mul_div_cancel_left q (Nat.pos_pow_of_pos _ (by norm_num))
  have h2 : p / 2 ^ COROUTINE_STACK_SHIFT = q := by
    apply Nat.div_eq_of_lt_le
    · simpa [Nat.mul_comm] using hlo
    · calc p < 2 ^ COROUTINE_STACK_SHIFT * q + 2 ^ COROUTINE_STACK_SHIFT := hhi
        _ = (q + 1) * 2 ^ COROUTINE_STACK_SHIFT := by ring
  rw [h2, Nat.mul_comm]

theorem align_mod_of_check {stackAddr : Nat}
    (h : createAlignCheck stackAddr = 0) :
    stackAddr % COROUTINE_STACK_SIZE = 0 := by
  unfold createAlignCheck COROUTINE_PAGE_SIZE at h
  have h4 : (4096 : Nat) = 2 ^ 12 := by norm_num
  rw [h4, Nat.and_pow_two_sub_one_eq_mod] at h
  simpa [COROUTINE_STACK_SIZE, COROUTINE_STACK_SHIFT] using h

/-! ## Memory writes -/

/-- A single word store: `*(ulong *)a = v`. -/
def memWrite (m : Nat → Nat) (a v : Nat) : Nat → Nat :=
  fun x => if x = a then v else m x

/-! ## `coroutine_create` (src/coroutine.c:4-30)

The two `kmalloc` outcomes are inputs (`none` = allocation failure,
`some a` = success at address `a`).  `BUG_ON` is a fatal stop, a
distinguished non-return outcome. -/

/-- The relevant fields of `struct coroutine` right after
`coroutine_create`, together with the stack memory it wrote. -/
structure CreatedCo where
  magic : Nat
  coAddr : Nat
  stackAddr : Nat
  refCount : Nat
  signaled : Nat
  listLinkEmpty : Bool
  mem : Nat → Nat

/-- Outcome of `coroutine_create`.  `nullStackAllocFailed a` records that
the partially-built object at address `a` was `kfree`d before returning
NULL (src/coroutine.c:18-21). -/
inductive CreateResult
  | nullCoAllocFailed
  | nullStackAllocFailed (freedCoAddr : Nat)
  | bugMisaligned
  | ok (co : CreatedCo)

/-- `coroutine_create` (src/coroutine.c:4-30): allocate the object, zero
it, set magic, allocate the stack, set refcount 1, signaled 0, list link
empty; on stack-allocation failure free the object and return NULL;
check stack alignment; write the bottom/top sentinels and the
self-back-pointer at `stack + STACK_SIZE - 2*sizeof(ulong)`. -/
def coroutine_create (coAlloc stackAlloc : Option Nat) (mem0 : Nat → Nat) :
    CreateResult :=
  match coAlloc with
  | none => .nullCoAllocFailed
  | some coAddr =>
    match stackAlloc with
    | none => .nullStackAllocFailed coAddr
    | some stackAddr =>
      if createAlignCheck stackAddr ≠ 0 then .bugMisaligned
      else
        let m1 := memWrite mem0 stackAddr COROUTINE_STACK_BOTTOM_MAGIC
        let m2 := memWrite m1 (stackAddr + COROUTINE_STACK_SIZE - WORD)
          COROUTINE_STACK_TOP_MAGIC
        let m3 := memWrite m2 (stackAddr + COROUTINE_STACK_SIZE - 2 * WORD)
          coAddr
        .ok { magic := COROUTINE_MAGIC, coAddr := coAddr,
              stackAddr := stackAddr, refCount := 1, signaled := 0,
              listLinkEmpty := true, mem := m3 }

/-! ## `coroutine_delete` / `coroutine_deref` (src/coroutine.c:37-61)

`BUG_ON` is modelled by `Option`: `none` means a fatal assertion.
The ready list is the list of queued coroutine ids; `list_del_init`
on possibly-queued `co` is `List.erase` (a no-op when absent). -/

/-- The fields of `struct coroutine` that the destruction path reads. -/
structure DelCo where
  id : Nat
  magic : Nat
  refCount : Nat
  stackAddr : Nat
  /-- `list_empty(&co->co_list_entry)` -/
  linkEmpty : Bool
  mem : Nat → Nat

/-- What `coroutine_delete` frees, in order. -/
inductive FreedItem
  | stack
  | obj
deriving DecidableEq, Repr

/-- Result of a successful `coroutine_delete`. -/
structure DeleteOut where
  readyList : List Nat
  freed : List FreedItem
deriving DecidableEq, Repr

/-- `coroutine_delete` (src/coroutine.c:37-55): assert the coroutine
magic, the stack bottom and top sentinels, and `ref_count == 0`; then
under `list_lock` remove the coroutine from the ready list defensively
(`list_del_init`), free the stack, free the object.  There is no
assertion on the list link. -/
def coroutine_delete (co : DelCo) (readyList : List Nat) : Option DeleteOut :=
  if co.magic ≠ COROUTINE_MAGIC then none
  else if co.mem co.stackAddr ≠ COROUTINE_STACK_BOTTOM_MAGIC then none
  else if co.mem (co.stackAddr + COROUTINE_STACK_SIZE - WORD) ≠
      COROUTINE_STACK_TOP_MAGIC then none
  else if co.refCount ≠ 0 then none
  else some { readyList := readyList.erase co.id, freed := [.stack, .obj] }

/-- The destruction path as claim C5 words it: in addition to the magic
and refcount assertions it asserts that the list link is empty before
removing.  Stated only to be compared with `coroutine_delete`. -/
def coroutine_delete_as_claimed (co : DelCo) (readyList : List Nat) :
    Option DeleteOut :=
  if co.magic ≠ COROUTINE_MAGIC then none
  else if co.mem co.stackAddr ≠ COROUTINE_STACK_BOTTOM_MAGIC then none
  else if co.mem (co.stackAddr + COROUTINE_STACK_SIZE - WORD) ≠
      COROUTINE_STACK_TOP_MAGIC then none
  else if ¬ co.linkEmpty then none
  else if co.refCount ≠ 0 then none
  else some { readyList := readyList.erase co.id, freed := [.stack, .obj] }

/-- Result of `coroutine_deref`. -/
inductive DerefOut
  | alive (refCount : Nat)
  | destroyed (out : DeleteOut)
deriving DecidableEq, Repr

/-- `coroutine_deref` (src/coroutine.c:57-61):
`atomic_dec_and_test(&co->ref_count)` and, when the count reaches zero,
`coroutine_delete`. -/
def coroutine_deref (co : DelCo) (readyList : List Nat) : Option DerefOut :=
  if co.refCount = 1 then
    (coroutine_delete { co with refCount := 0 } readyList).map .destroyed
  else
    some (.alive (co.refCount - 1))

/-! ## `coroutine_wait` (src/coroutine.c:200-205)

`while (co->running) coroutine_yield(self); return co->ret;`

`coroutine_yield` itself lives in the missing `coroutine.h`; modelled
from the spec (§4.2): it suspends `self` once and returns when the
scheduler resumes it.  For `wait` only the suspension count matters.
`obs i` is the value of `co->running` read by the i-th iteration of the
loop (it may change across a yield); the result pairs the number of
yields performed with `co->ret`.  Fuel makes the loop total; `none`
means the fuel ran out, never a result of the code. -/

def coroutine_wait (obs : Nat → Bool) (ret : Nat) :
    Nat → Nat → Option (Nat × Nat)
  | 0, _ => none
  | fuel + 1, i =>
    if obs i then coroutine_wait obs ret fuel (i + 1) else some (i, ret)

/-! ## `tlb_server_start` host handling (src/server.c:105-126) -/

/-- External C-library contract: `snprintf(buf, n, "%s", s)` stores
`min(strlen(s), n-1)` characters (plus NUL) and returns `strlen(s)` —
the number of characters that *would* have been written had the buffer
been large enough. -/
def snprintf_s (n : Nat) (s : List Char) : Nat × List Char :=
  (s.length, s.take (n - 1))

/-- Return classification of `tlb_server_start`. -/
inductive ServerStartResult
  | einval
  | listenFailed (r : Int)
  | threadStartFailed (r : Int)
  | kthreadFailed (r : Int)
  | ok
deriving DecidableEq, Repr

/-- Observable outcome of `tlb_server_start`: the returned value, the
host string actually stored in `srv->host`, and whether the listen
socket / listen thread are live on return. -/
structure ServerStartOut where
  result : ServerStartResult
  storedHost : List Char
  socketOpen : Bool
  listenThreadStarted : Bool
deriving DecidableEq, Repr

/-- The `ksock_listen_host` retry loop (src/server.c:114-124): up to 5
attempts; attempt `i` returns `listen i`; the loop leaves early on
success and otherwise retries (`-EADDRINUSE` merely adds a sleep before
the retry); the value tested after the loop is the last attempt's. -/
def listen_retry (listen : Nat → Int) : Nat → Nat → Int
  | _, 0 => 0
  | i, fuel + 1 =>
    let r := listen i
    if r = 0 then 0
    else match fuel with
      | 0 => r
      | _ + 1 => listen_retry listen (i + 1) fuel

/-- `tlb_server_start` (src/server.c:105-145).  `bufSize` is
`ARRAY_SIZE(srv->host)` (declared in the missing `tlb_server.h`);
`listen`, `threadStartR`, `kthreadCreateR` are the outcomes of the
external calls (`ksock_listen_host`, `coroutine_thread_start`,
`kthread_create`). -/
def tlb_server_start (bufSize : Nat) (host : List Char)
    (listen : Nat → Int) (threadStartR : Int) (kthreadCreateR : Option Int) :
    ServerStartOut :=
  let sn := snprintf_s bufSize host
  if sn.1 ≠ host.length then
    { result := .einval, storedHost := sn.2,
      socketOpen := false, listenThreadStarted := false }
  else
    let r := listen_retry listen 0 5
    if r ≠ 0 then
      { result := .listenFailed r, storedHost := sn.2,
        socketOpen := false, listenThreadStarted := false }
    else if threadStartR ≠ 0 then
      { result := .threadStartFailed threadStartR, storedHost := sn.2,
        socketOpen := false, listenThreadStarted := false }
    else
      match kthreadCreateR with
      | some e =>
        { result := .kthreadFailed e, storedHost := sn.2,
          socketOpen := false, listenThreadStarted := false }
      | none =>
        { result := .ok, storedHost := sn.2,
          socketOpen := true, listenThreadStarted := true }

/-! ## The listener loop (src/server.c:74-103) and `tlb_con_delete` -/

/-- The connection coroutine as the listener observes it. -/
structure ConCo where
  refCount : Nat
  signaled : Nat
  started : Bool
  entered : Bool
  destroyed : Bool
deriving DecidableEq, Repr

/-- A connection coroutine fresh from `coroutine_create`
(src/coroutine.c:15-17): one creation reference, no signals, never
started, never entered. -/
def freshConCo : ConCo :=
  { refCount := 1, signaled := 0, started := false,
    entered := false, destroyed := false }

/-- `coroutine_deref` at the level of the listener model
(src/coroutine.c:57-61): the reference dropping the count to zero
destroys the coroutine. -/
def conCoDeref (c : ConCo) : ConCo :=
  if c.refCount = 1 then { c with refCount := 0, destroyed := true }
  else { c with refCount := c.refCount - 1 }

/-- `coroutine_start` at the level of the listener model
(src/coroutine.c:86-97): arms the coroutine and posts its first
signal. -/
def conCoStart (c : ConCo) : ConCo :=
  { c with started := true, signaled := c.signaled + 1 }

/-- `struct tlb_con` (src/server.c:3-7) plus the ghost flag recording
whether `ksock_release` ran on its socket. -/
structure TlbCon where
  co : ConCo
  sockSet : Bool
  sockReleased : Bool
deriving DecidableEq, Repr

/-- `tlb_con_delete` (src/server.c:9-14): deref the coroutine; release
the socket only if one was attached. -/
def tlb_con_delete (con : TlbCon) : TlbCon :=
  { con with co := conCoDeref con.co, sockReleased := con.sockSet }

/-- `tlb_con_start` (src/server.c:68-72): attach the socket, then start
the coroutine. -/
def tlb_con_start (con : TlbCon) : TlbCon :=
  { con with sockSet := true, co := conCoStart con.co }

/-- One iteration's external inputs for the listener loop:
the `kthread_should_stop() || srv->stopping` read at the loop head, the
`tlb_con_create` outcome, and the `ksock_accept` return value. -/
structure ListenEvent where
  stopSeen : Bool
  conCreateOk : Bool
  acceptRet : Int
deriving DecidableEq, Repr

/-- What became of one created connection. -/
inductive ConOutcome
  | rejected (con : TlbCon)
  | accepted (con : TlbCon)
deriving DecidableEq, Repr

/-- Result of the listener routine. -/
structure ListenResult where
  cons : List ConOutcome
  listenThreadStopping : Bool
deriving DecidableEq, Repr

/-- `tlb_server_listen_thread_routine` (src/server.c:74-103): while not
stopping, create a connection (break on failure), accept (on error
delete the connection and continue), otherwise start it; finally set
`listen_thread_stopping`.  The event list drives the external inputs;
an exhausted list stands for the stop request arriving. -/
def tlb_server_listen_thread_routine : List ListenEvent → ListenResult
  | [] => { cons := [], listenThreadStopping := true }
  | e :: rest =>
    if e.stopSeen then { cons := [], listenThreadStopping := true }
    else if ¬ e.conCreateOk then { cons := [], listenThreadStopping := true }
    else
      let con : TlbCon :=
        { co := freshConCo, sockSet := false, sockReleased := false }
      if e.acceptRet ≠ 0 then
        let r := tlb_server_listen_thread_routine rest
        { r with cons := .rejected (tlb_con_delete con) :: r.cons }
      else
        let r := tlb_server_listen_thread_routine rest
        { r with cons := .accepted (tlb_con_start con) :: r.cons }

/-! ## The coroutine system (src/coroutine.c)

An interleaving small-step semantics for one `coroutine_thread` with its
worker, its ready list, and arbitrarily many coroutines (identified by
`Nat`).  Producers (`coroutine_signal`, `coroutine_cancel`,
`coroutine_start`, `coroutine_ref`/`deref`) may fire at any time, as in
the C code they may run on any thread; the worker's loop and the
coroutine bodies are decomposed into steps at the atomic operations and
the `list_lock`-protected sections of the source.

A coroutine body (the user function plus the trampoline around it,
src/coroutine.c:63-84) is abstracted by a script: it performs `yields`
calls to `coroutine_yield` and then returns `retVal`.  The ghost field
`calls` logs every invocation of the user function together with the
argument values passed (`co->fun(co, co->arg)`, src/coroutine.c:75).
`coroutine_yield` itself is declared in the missing `coroutine.h` and is
modelled from the spec (§4.2): it returns control to the worker and
resumes where it left off.  Magic sentinels and stack words are covered
by the memory-level models above and are omitted here; the one
merged read: the model reads `co->running` once per scheduler pass
(src/coroutine.c:172), subsuming the re-read in `coroutine_enter`'s
`BUG_ON` (src/coroutine.c:102). -/

/-- Control state of one coroutine body. -/
inductive CoPC
  | notStarted
  | fresh
  | runningBody
  | suspended
  | bodyDone
  | retStored
  | finishedYield
  | finished
deriving DecidableEq, Repr

/-- One `struct coroutine` (src/coroutine.h via its uses): scheduler
fields plus the body script and the ghost invocation log. -/
structure Co where
  pc : CoPC
  running : Bool
  signaled : Nat
  refCount : Nat
  destroyed : Bool
  arg : Nat
  yields : Nat
  retVal : Nat
  ret : Option Nat
  calls : List (Nat × Nat)
deriving DecidableEq, Repr

/-- Control state of the worker thread inside
`coroutine_thread_routine` (src/coroutine.c:158-198). -/
inductive WPC
  | parked
  | drainTop
  | checkRun (c : Nat)
  | inCo (c : Nat)
  | afterEnter (c : Nat)
  | afterNext (c : Nat) (nxt : Option Nat)
  | afterDec (c : Nat) (nxt : Option Nat) (zero : Bool)
  | decThread
deriving DecidableEq, Repr

/-- The whole system: all coroutines, the thread's ready list and
signal counter, and the worker's control state. -/
structure Sys where
  cos : Nat → Co
  readyList : List Nat
  threadSignaled : Nat
  worker : WPC

/-- Point update of the coroutine map. -/
def updCo (s : Sys) (c : Nat) (co : Co) : Sys :=
  { s with cos := fun j => if j = c then co else s.cos j }

/-- `coroutine_ref` (src/coroutine.c:32-35). -/
def coroutine_ref_sys (s : Sys) (c : Nat) : Sys :=
  updCo s c { s.cos c with refCount := (s.cos c).refCount + 1 }

/-- `coroutine_delete` at system level (src/coroutine.c:37-55): remove
from the ready list defensively, mark destroyed (stack and object are
freed). -/
def coroutine_delete_sys (s : Sys) (c : Nat) : Sys :=
  { updCo s c { s.cos c with destroyed := true } with
      readyList := s.readyList.erase c }

/-- `coroutine_deref` at system level (src/coroutine.c:57-61). -/
def coroutine_deref_sys (s : Sys) (c : Nat) : Sys :=
  let co := s.cos c
  let s1 := updCo s c { co with refCount := co.refCount - 1 }
  if co.refCount = 1 then coroutine_delete_sys s1 c else s1

/-- `coroutine_signal` (src/coroutine.c:108-123):
`atomic_inc(&co->signaled)`; under the lock, if the link is empty take a
reference and append to the ready list; `atomic_inc(&thread->signaled)`;
wake the wait queue (the wake itself has no state effect; the parked
worker's wake step is enabled by the counter). -/
def coroutine_signal_sys (s : Sys) (c : Nat) : Sys :=
  let co := s.cos c
  if c ∈ s.readyList then
    { updCo s c { co with signaled := co.signaled + 1 } with
        threadSignaled := s.threadSignaled + 1 }
  else
    { updCo s c { co with signaled := co.signaled + 1,
                          refCount := co.refCount + 1 } with
        readyList := s.readyList ++ [c],
        threadSignaled := s.threadSignaled + 1 }

/-- The ready-list suffix the walker traverses: the whole list when
`prev` is NULL, and the part after `prev`'s entry otherwise
(src/coroutine.c:141). -/
def walkFrom (l : List Nat) : Option Nat → List Nat
  | none => l
  | some p => (l.dropWhile (fun x => x != p)).drop 1

/-- `coroutine_thread_next_coroutine` (src/coroutine.c:131-156): under
the lock, walk from `prev` (or the head), skip entries whose refcount is
zero (`atomic_inc_not_zero` fails: they are being destroyed), take a
reference on the first usable entry; finally drop the walker's reference
on `prev`. -/
def coroutine_thread_next_coroutine (s : Sys) (prev : Option Nat) :
    Option Nat × Sys :=
  let cand := (walkFrom s.readyList prev).find?
    (fun x => (s.cos x).refCount != 0)
  let s1 := match cand with
    | some n => coroutine_ref_sys s n
    | none => s
  let s2 := match prev with
    | some p => coroutine_deref_sys s1 p
    | none => s1
  (cand, s2)

/-- The atomic events of the system.  Producer labels may fire from any
thread at any time; the others are the worker's and the running body's
program points. -/
inductive Label
  | startCo (c a y r : Nat)
  | signal (c : Nat)
  | cancel (c : Nat)
  | userRef (c : Nat)
  | userDeref (c : Nat)
  | wake
  | takeNull
  | enter (c : Nat)
  | skipEnter (c : Nat)
  | yieldCo (c : Nat)
  | bodyReturn (c : Nat)
  | storeRet (c : Nat)
  | clearRunning (c : Nat)
  | finalYield (c : Nat)
  | takeNext (c : Nat)
  | decCoSig (c : Nat)
  | finishCo (c : Nat)
  | decThreadSig
deriving DecidableEq, Repr

/-- One atomic step.  `none` means the event is not enabled (its guard
fails) or a `BUG_ON` would fire. -/
def step (s : Sys) : Label → Option Sys
  | .startCo c a y r =>
    -- coroutine_start (src/coroutine.c:86-97): set fun/arg/ctx, set
    -- running, then signal.  Enabled only once (§4.2: "Must only be
    -- called once per coroutine").
    let co := s.cos c
    if co.destroyed then none
    else if co.pc ≠ CoPC.notStarted then none
    else
      some (coroutine_signal_sys
        (updCo s c { co with pc := .fresh, running := true, arg := a,
                             yields := y, retVal := r }) c)
  | .signal c =>
    if (s.cos c).destroyed then none
    else some (coroutine_signal_sys s c)
  | .cancel c =>
    -- coroutine_cancel (src/coroutine.c:125-129)
    let co := s.cos c
    if co.destroyed then none
    else some (coroutine_signal_sys (updCo s c { co with running := false }) c)
  | .userRef c =>
    if (s.cos c).destroyed then none
    else some (coroutine_ref_sys s c)
  | .userDeref c =>
    let co := s.cos c
    if co.destroyed then none
    else if co.refCount = 0 then none
    else some (coroutine_deref_sys s c)
  | .wake =>
    -- wait_event_interruptible(waitq, stopping || signaled) returning
    -- (src/coroutine.c:165); no stop event exists in this model.
    if s.worker ≠ WPC.parked then none
    else if s.threadSignaled = 0 then none
    else some { s with worker := .drainTop }
  | .takeNull =>
    -- co = coroutine_thread_next_coroutine(thread, NULL)
    -- (src/coroutine.c:170-171)
    if s.worker ≠ WPC.drainTop then none
    else
      let r := coroutine_thread_next_coroutine s none
      some { r.2 with worker := match r.1 with
        | some n => .checkRun n
        | none => .decThread }
  | .enter c =>
    -- if (co->running) coroutine_enter(co) (src/coroutine.c:172-173),
    -- switching into the body; first entry lands in the trampoline and
    -- invokes co->fun(co, co->arg) (src/coroutine.c:75)
    if s.worker ≠ WPC.checkRun c then none
    else
      let co := s.cos c
      if ¬ co.running then none
      else if co.pc = CoPC.fresh then
        some { updCo s c { co with pc := .runningBody,
                                   calls := co.calls ++ [(c, co.arg)] } with
                 worker := .inCo c }
      else if co.pc = CoPC.suspended then
        some { updCo s c { co with pc := .runningBody } with
                 worker := .inCo c }
      else none
  | .skipEnter c =>
    -- the running check fails: fall through without entering
    if s.worker ≠ WPC.checkRun c then none
    else if (s.cos c).running then none
    else some { s with worker := .afterEnter c }
  | .yieldCo c =>
    -- the body calls coroutine_yield (spec §4.2): control returns to the
    -- worker just after coroutine_enter
    if s.worker ≠ WPC.inCo c then none
    else
      let co := s.cos c
      if co.pc ≠ CoPC.runningBody then none
      else if co.yields = 0 then none
      else some { updCo s c { co with yields := co.yields - 1,
                                      pc := .suspended } with
                    worker := .afterEnter c }
  | .bodyReturn c =>
    -- co->fun returns (src/coroutine.c:75): back in the trampoline
    if s.worker ≠ WPC.inCo c then none
    else
      let co := s.cos c
      if co.pc ≠ CoPC.runningBody then none
      else if co.yields ≠ 0 then none
      else some (updCo s c { co with pc := .bodyDone })
  | .storeRet c =>
    -- co->ret = <return value> (src/coroutine.c:75)
    if s.worker ≠ WPC.inCo c then none
    else
      let co := s.cos c
      if co.pc ≠ CoPC.bodyDone then none
      else some (updCo s c { co with ret := some co.retVal, pc := .retStored })
  | .clearRunning c =>
    -- mb(); co->running = false (src/coroutine.c:81-82)
    if s.worker ≠ WPC.inCo c then none
    else
      let co := s.cos c
      if co.pc ≠ CoPC.retStored then none
      else some (updCo s c { co with running := false, pc := .finishedYield })
  | .finalYield c =>
    -- the trampoline's final coroutine_yield (src/coroutine.c:83)
    if s.worker ≠ WPC.inCo c then none
    else
      let co := s.cos c
      if co.pc ≠ CoPC.finishedYield then none
      else some { updCo s c { co with pc := .finished } with
                    worker := .afterEnter c }
  | .takeNext c =>
    -- next_co = coroutine_thread_next_coroutine(thread, co)
    -- (src/coroutine.c:175)
    if s.worker ≠ WPC.afterEnter c then none
    else
      let r := coroutine_thread_next_coroutine s (some c)
      some { r.2 with worker := .afterNext c r.1 }
  | .decCoSig c =>
    -- atomic_dec_and_test(&co->signaled) (src/coroutine.c:177)
    match s.worker with
    | .afterNext c' nxt =>
      if c' ≠ c then none
      else
        let co := s.cos c
        some { updCo s c { co with signaled := co.signaled - 1 } with
                 worker := .afterDec c nxt (co.signaled == 1) }
    | _ => none
  | .finishCo c =>
    -- the locked section (src/coroutine.c:178-189): BUG_ON if the link
    -- is empty; on zero remove and drop the list's reference, otherwise
    -- move to the tail
    match s.worker with
    | .afterDec c' nxt zero =>
      if c' ≠ c then none
      else if c ∈ s.readyList then
        let cont : WPC := match nxt with
          | some n => .checkRun n
          | none => .decThread
        if zero then
          some { coroutine_deref_sys
                   { s with readyList := s.readyList.erase c } c with
                   worker := cont }
        else
          some { s with readyList := s.readyList.erase c ++ [c],
                        worker := cont }
      else none
    | _ => none
  | .decThreadSig =>
    -- atomic_dec_and_test(&thread->signaled) (src/coroutine.c:193-194)
    if s.worker ≠ WPC.decThread then none
    else some { s with threadSignaled := s.threadSignaled - 1,
                       worker := if s.threadSignaled == 1
                         then .parked else .drainTop }

/-- A coroutine as `coroutine_create` returns it (src/coroutine.c:4-30):
refcount 1, signaled 0, link empty, not running, never invoked. -/
def initCo : Co :=
  { pc := .notStarted, running := false, signaled := 0, refCount := 1,
    destroyed := false, arg := 0, yields := 0, retVal := 0, ret := none,
    calls := [] }

/-- The freshly started thread (src/coroutine.c:207-229): empty ready
list, signal counter 0, worker parked; every coroutine fresh from
`coroutine_create`. -/
def initSys : Sys :=
  { cos := fun _ => initCo, readyList := [], threadSignaled := 0,
    worker := .parked }

/-- Reachability along enabled steps. -/
inductive Reach : Sys → Sys → Prop
  | refl (s : Sys) : Reach s s
  | tail {s t u : Sys} (l : Label) : Reach s t → step t l = some u → Reach s u

/-- Run a list of labels, failing if one is not enabled. -/
def applyLabels (s : Sys) : List Label → Option Sys
  | [] => some s
  | l :: ls =>
    match step s l with
    | none => none
    | some t => applyLabels t ls

theorem reach_head {s u t : Sys} {l : Label}
    (h : step s l = some u) (hr : Reach u t) : Reach s t := by
  induction hr with
  | refl => exact Reach.tail l (Reach.refl s) h
  | tail l' _ hstep ih => exact Reach.tail l' ih hstep

theorem reach_trans {s t u : Sys} (h1 : Reach s t) (h2 : Reach t u) :
    Reach s u := by
  induction h2 with
  | refl => exact h1
  | tail l _ hstep ih => exact Reach.tail l ih hstep

theorem reach_of_applyLabels :
    ∀ (ls : List Label) (s t : Sys), applyLabels s ls = some t → Reach s t := by
  intro ls
  induction ls with
  | nil => intro s t h; cases h; exact Reach.refl s
  | cons l ls ih =>
    intro s t h
    unfold applyLabels at h
    cases hstep : step s l with
    | none => rw [hstep] at h; cases h
    | some u => rw [hstep] at h; exact reach_head hstep (ih u t h)

/-! ## Field-preservation lemmas

The producers and the list walker never touch a coroutine's control
fields (`pc`, `calls`, `arg`, `ret`, `retVal`, `yields`, `running`);
they only move the counters and the list. -/

/-- The fields relevant to the control-flow invariants. -/
def ctrlEq (x y : Co) : Prop :=
  x.pc = y.pc ∧ x.calls = y.calls ∧ x.arg = y.arg ∧ x.ret = y.ret ∧
  x.retVal = y.retVal ∧ x.yields = y.yields ∧ x.running = y.running

theorem ctrlEq_refl (x : Co) : ctrlEq x x := by
  simp [ctrlEq]

theorem ctrlEq_trans {x y z : Co} (h1 : ctrlEq x y) (h2 : ctrlEq y z) :
    ctrlEq x z := by
  obtain ⟨a1, b1, c1, d1, e1, f1, g1⟩ := h1
  obtain ⟨a2, b2, c2, d2, e2, f2, g2⟩ := h2
  exact ⟨a1.trans a2, b1.trans b2, c1.trans c2, d1.trans d2, e1.trans e2,
    f1.trans f2, g1.trans g2⟩

theorem updCo_cos (s : Sys) (c : Nat) (co : Co) (d : Nat) :
    (updCo s c co).cos d = if d = c then co else s.cos d := rfl

theorem signal_cos_ctrl (s : Sys) (c d : Nat) :
    ctrlEq ((coroutine_signal_sys s c).cos d) (s.cos d) := by
  unfold coroutine_signal_sys updCo ctrlEq
  by_cases h : c ∈ s.readyList <;> by_cases h2 : d = c <;> simp [h, h2]

theorem signal_cos_destroyed (s : Sys) (c d : Nat) :
    ((coroutine_signal_sys s c).cos d).destroyed = (s.cos d).destroyed := by
  unfold coroutine_signal_sys updCo
  by_cases h : c ∈ s.readyList <;> by_cases h2 : d = c <;> simp [h, h2]

theorem signal_readyList (s : Sys) (c : Nat) :
    (coroutine_signal_sys s c).readyList =
      if c ∈ s.readyList then s.readyList else s.readyList ++ [c] := by
  unfold coroutine_signal_sys
  by_cases h : c ∈ s.readyList <;> simp [h, updCo]

theorem signal_worker (s : Sys) (c : Nat) :
    (coroutine_signal_sys s c).worker = s.worker := by
  unfold coroutine_signal_sys
  by_cases h : c ∈ s.readyList <;> simp [h, updCo]

theorem ref_cos_ctrl (s : Sys) (c d : Nat) :
    ctrlEq ((coroutine_ref_sys s c).cos d) (s.cos d) := by
  unfold coroutine_ref_sys updCo ctrlEq
  by_cases h2 : d = c <;> simp [h2]

theorem ref_readyList (s : Sys) (c : Nat) :
    (coroutine_ref_sys s c).readyList = s.readyList := rfl

theorem delete_cos_ctrl (s : Sys) (c d : Nat) :
    ctrlEq ((coroutine_delete_sys s c).cos d) (s.cos d) := by
  unfold coroutine_delete_sys updCo ctrlEq
  by_cases h2 : d = c <;> simp [h2]

theorem delete_readyList (s : Sys) (c : Nat) :
    (coroutine_delete_sys s c).readyList = s.readyList.erase c := rfl

theorem deref_cos_ctrl (s : Sys) (c d : Nat) :
    ctrlEq ((coroutine_deref_sys s c).cos d) (s.cos d) := by
  unfold coroutine_deref_sys coroutine_delete_sys updCo ctrlEq
  by_cases h : (s.cos c).refCount = 1 <;> by_cases h2 : d = c <;>
    simp [h, h2]

theorem deref_readyList (s : Sys) (c : Nat) :
    (coroutine_deref_sys s c).readyList =
      if (s.cos c).refCount = 1 then s.readyList.erase c else s.readyList := by
  unfold coroutine_deref_sys coroutine_delete_sys updCo
  by_cases h : (s.cos c).refCount = 1 <;> simp [h]

theorem deref_worker (s : Sys) (c : Nat) :
    (coroutine_deref_sys s c).worker = s.worker := by
  unfold coroutine_deref_sys coroutine_delete_sys updCo
  by_cases h : (s.cos c).refCount = 1 <;> simp [h]

theorem nextco_cos_ctrl (s : Sys) (prev : Option Nat) (d : Nat) :
    ctrlEq ((coroutine_thread_next_coroutine s prev).2.cos d) (s.cos d) := by
  unfold coroutine_thread_next_coroutine
  cases hc : (walkFrom s.readyList prev).find?
      (fun x => (s.cos x).refCount != 0) with
  | none =>
    cases prev with
    | none => simp [ctrlEq_refl]
    | some p => simpa using deref_cos_ctrl s p d
  | some n =>
    cases prev with
    | none => simpa using ref_cos_ctrl s n d
    | some p =>
      simp only
      exact ctrlEq_trans (deref_cos_ctrl _ p d) (ref_cos_ctrl s n d)

theorem nextco_readyList_nodup (s : Sys) (prev : Option Nat)
    (h : s.readyList.Nodup) :
    (coroutine_thread_next_coroutine s prev).2.readyList.Nodup := by
  unfold coroutine_thread_next_coroutine
  cases hc : (walkFrom s.readyList prev).find?
      (fun x => (s.cos x).refCount != 0) with
  | none =>
    cases prev with
    | none => simpa using h
    | some p =>
      simp only [deref_readyList]
      split <;> [exact h.erase p; exact h]
  | some n =>
    cases prev with
    | none => simpa [ref_readyList] using h
    | some p =>
      simp only [deref_readyList, ref_readyList]
      split <;> [exact h.erase p; exact h]

theorem nodup_append_singleton {l : List Nat} {c : Nat}
    (h : l.Nodup) (hc : c ∉ l) : (l ++ [c]).Nodup := by
  rw [List.nodup_append]
  refine ⟨h, List.nodup_singleton c, ?_⟩
  intro x hx hmem
  simp only [List.mem_singleton] at hmem
  subst hmem
  exact hc hx

theorem signal_nodup (s : Sys) (c : Nat) (h : s.readyList.Nodup) :
    (coroutine_signal_sys s c).readyList.Nodup := by
  rw [signal_readyList]
  split
  · exact h
  · next hc => exact nodup_append_singleton h hc

/-! ## The control-flow invariant

`calls` is empty until the first entry, and from then on is the single
invocation `(c, arg)`; once the trampoline has stored the return value
(`retStored` and later), `ret` holds it. -/

/-- Invariant of one coroutine's control state. -/
def CoGood (c : Nat) (co : Co) : Prop :=
  ((co.pc = CoPC.notStarted ∨ co.pc = CoPC.fresh) → co.calls = []) ∧
  (co.pc ≠ CoPC.notStarted → co.pc ≠ CoPC.fresh → co.calls = [(c, co.arg)]) ∧
  ((co.pc = CoPC.retStored ∨ co.pc = CoPC.finishedYield ∨
      co.pc = CoPC.finished) → co.ret = some co.retVal)

/-- The system invariant: the ready list never holds duplicates, and
every coroutine's control state is well-formed. -/
def Inv (s : Sys) : Prop :=
  s.readyList.Nodup ∧ ∀ c, CoGood c (s.cos c)

theorem coGood_of_ctrlEq {c : Nat} {x y : Co} (h : ctrlEq x y)
    (hg : CoGood c y) : CoGood c x := by
  obtain ⟨hpc, hcalls, harg, hret, hrv, -, -⟩ := h
  unfold CoGood at *
  rw [hpc, hcalls, harg, hret, hrv]
  exact hg

theorem coGood_updCo {s : Sys} {c : Nat} {co : Co}
    (hall : ∀ d, CoGood d (s.cos d)) (hc : CoGood c co) :
    ∀ d, CoGood d ((updCo s c co).cos d) := by
  intro d
  rw [updCo_cos]
  split
  · next hdc => subst hdc; exact hc
  · exact hall d

theorem inv_init : Inv initSys := by
  constructor
  · simp [initSys]
  · intro c
    simp [initSys, initCo, CoGood]

theorem inv_step {s t : Sys} {l : Label} (hs : Inv s)
    (h : step s l = some t) : Inv t := by
  obtain ⟨hnd, hco⟩ := hs
  cases l with
  | startCo c a y r =>
    simp only [step] at h
    split at h
    · exact Option.noConfusion h
    · split at h
      · exact Option.noConfusion h
      · next hdest hpc =>
        injection h with h
        subst h
        have hpc' : (s.cos c).pc = CoPC.notStarted := not_not.mp hpc
        refine ⟨signal_nodup _ c hnd, fun d =>
          coGood_of_ctrlEq (signal_cos_ctrl _ c d) ?_⟩
        apply coGood_updCo hco
        have h1 := (hco c).1 (Or.inl hpc')
        exact ⟨fun _ => h1, fun _ hf => absurd rfl hf, fun hmem => by
          simp at hmem⟩
  | signal c =>
    simp only [step] at h
    split at h
    · exact Option.noConfusion h
    · injection h with h
      subst h
      exact ⟨signal_nodup s c hnd, fun d =>
        coGood_of_ctrlEq (signal_cos_ctrl s c d) (hco d)⟩
  | cancel c =>
    simp only [step] at h
    split at h
    · exact Option.noConfusion h
    · injection h with h
      subst h
      refine ⟨signal_nodup _ c hnd, fun d =>
        coGood_of_ctrlEq (signal_cos_ctrl _ c d) ?_⟩
      apply coGood_updCo hco
      exact (hco c)
  | userRef c =>
    simp only [step] at h
    split at h
    · exact Option.noConfusion h
    · injection h with h
      subst h
      exact ⟨hnd, fun d => coGood_of_ctrlEq (ref_cos_ctrl s c d) (hco d)⟩
  | userDeref c =>
    simp only [step] at h
    split at h
    · exact Option.noConfusion h
    · split at h
      · exact Option.noConfusion h
      · injection h with h
        subst h
        refine ⟨?_, fun d => coGood_of_ctrlEq (deref_cos_ctrl s c d) (hco d)⟩
        rw [deref_readyList]
        split
        · exact hnd.erase c
        · exact hnd
  | wake =>
    simp only [step] at h
    split at h
    · exact Option.noConfusion h
    · split at h
      · exact Option.noConfusion h
      · injection h with h
        subst h
        exact ⟨hnd, hco⟩
  | takeNull =>
    simp only [step] at h
    split at h
    · exact Option.noConfusion h
    · injection h with h
      subst h
      exact ⟨nextco_readyList_nodup s none hnd, fun d =>
        coGood_of_ctrlEq (nextco_cos_ctrl s none d) (hco d)⟩
  | enter c =>
    simp only [step] at h
    split at h
    · exact Option.noConfusion h
    · split at h
      · exact Option.noConfusion h
      · split at h
        · -- pc = fresh
          next hpc =>
          injection h with h
          subst h
          refine ⟨hnd, ?_⟩
          apply coGood_updCo hco
          have h1 := (hco c).1 (Or.inr hpc)
          refine ⟨fun hmem => by simp at hmem, fun _ _ => ?_, fun hmem => by
            simp at hmem⟩
          simp [h1]
        · split at h
          · -- pc = suspended
            next hpc =>
            injection h with h
            subst h
            refine ⟨hnd, ?_⟩
            apply coGood_updCo hco
            have h2 := (hco c).2.1 (by rw [hpc]; simp) (by rw [hpc]; simp)
            exact ⟨fun hmem => by simp at hmem, fun _ _ => h2, fun hmem => by
              simp at hmem⟩
          · exact Option.noConfusion h
  | skipEnter c =>
    simp only [step] at h
    split at h
    · exact Option.noConfusion h
    · split at h
      · exact Option.noConfusion h
      · injection h with h
        subst h
        exact ⟨hnd, hco⟩
  | yieldCo c =>
    simp only [step] at h
    split at h
    · exact Option.noConfusion h
    · split at h
      · exact Option.noConfusion h
      · split at h
        · exact Option.noConfusion h
        · next hpc hy =>
          injection h with h
          subst h
          refine ⟨hnd, ?_⟩
          apply coGood_updCo hco
          have hpc' : (s.cos c).pc = CoPC.runningBody := not_not.mp hpc
          have h2 := (hco c).2.1 (by rw [hpc']; simp) (by rw [hpc']; simp)
          exact ⟨fun hmem => by simp at hmem, fun _ _ => h2, fun hmem => by
            simp at hmem⟩
  | bodyReturn c =>
    simp only [step] at h
    split at h
    · exact Option.noConfusion h
    · split at h
      · exact Option.noConfusion h
      · split at h
        · exact Option.noConfusion h
        · next hpc hy =>
          injection h with h
          subst h
          refine ⟨hnd, ?_⟩
          apply coGood_updCo hco
          have hpc' : (s.cos c).pc = CoPC.runningBody := not_not.mp hpc
          have h2 := (hco c).2.1 (by rw [hpc']; simp) (by rw [hpc']; simp)
          exact ⟨fun hmem => by simp at hmem, fun _ _ => h2, fun hmem => by
            simp at hmem⟩
  | storeRet c =>
    simp only [step] at h
    split at h
    · exact Option.noConfusion h
    · split at h
      · exact Option.noConfusion h
      · next hpc =>
        injection h with h
        subst h
        refine ⟨hnd, ?_⟩
        apply coGood_updCo hco
        have hpc' : (s.cos c).pc = CoPC.bodyDone := not_not.mp hpc
        have h2 := (hco c).2.1 (by rw [hpc']; simp) (by rw [hpc']; simp)
        exact ⟨fun hmem => by simp at hmem, fun _ _ => h2, fun _ => rfl⟩
  | clearRunning c =>
    simp only [step] at h
    split at h
    · exact Option.noConfusion h
    · split at h
      · exact Option.noConfusion h
      · next hpc =>
        injection h with h
        subst h
        refine ⟨hnd, ?_⟩
        apply coGood_updCo hco
        have hpc' : (s.cos c).pc = CoPC.retStored := not_not.mp hpc
        have h2 := (hco c).2.1 (by rw [hpc']; simp) (by rw [hpc']; simp)
        have h3 := (hco c).2.2 (Or.inl hpc')
        exact ⟨fun hmem => by simp at hmem, fun _ _ => h2, fun _ => h3⟩
  | finalYield c =>
    simp only [step] at h
    split at h
    · exact Option.noConfusion h
    · split at h
      · exact Option.noConfusion h
      · next hpc =>
        injection h with h
        subst h
        refine ⟨hnd, ?_⟩
        apply coGood_updCo hco
        have hpc' : (s.cos c).pc = CoPC.finishedYield := not_not.mp hpc
        have h2 := (hco c).2.1 (by rw [hpc']; simp) (by rw [hpc']; simp)
        have h3 := (hco c).2.2 (Or.inr (Or.inl hpc'))
        exact ⟨fun hmem => by simp at hmem, fun _ _ => h2, fun _ => h3⟩
  | takeNext c =>
    simp only [step] at h
    split at h
    · exact Option.noConfusion h
    · injection h with h
      subst h
      exact ⟨nextco_readyList_nodup s (some c) hnd, fun d =>
        coGood_of_ctrlEq (nextco_cos_ctrl s (some c) d) (hco d)⟩
  | decCoSig c =>
    simp only [step] at h
    split at h
    · next c' nxt heq =>
      split at h
      · exact Option.noConfusion h
      · injection h with h
        subst h
        refine ⟨hnd, ?_⟩
        apply coGood_updCo hco
        obtain ⟨h1, h2, h3⟩ := hco c
        exact ⟨h1, h2, h3⟩
    · exact Option.noConfusion h
  | finishCo c =>
    simp only [step] at h
    split at h
    · next c' nxt zero heq =>
      split at h
      · exact Option.noConfusion h
      · split at h
        · next hmem =>
          split at h
          · -- zero: remove and deref
            injection h with h
            subst h
            refine ⟨?_, fun d => coGood_of_ctrlEq
              (deref_cos_ctrl _ c d) (hco d)⟩
            have : ({ s with readyList := s.readyList.erase c } : Sys).readyList.Nodup :=
              hnd.erase c
            rw [deref_readyList]
            split
            · exact this.erase c
            · exact this
          · -- nonzero: move to tail
            injection h with h
            subst h
            refine ⟨?_, hco⟩
            exact nodup_append_singleton (hnd.erase c) hnd.not_mem_erase
        · exact Option.noConfusion h
    · exact Option.noConfusion h
  | decThreadSig =>
    simp only [step] at h
    split at h
    · exact Option.noConfusion h
    · injection h with h
      subst h
      exact ⟨hnd, hco⟩

theorem inv_reach_from {s t : Sys} (hs : Inv s) (h : Reach s t) : Inv t := by
  induction h with
  | refl => exact hs
  | tail l _ hstep ih => exact inv_step ih hstep

theorem inv_reach {s : Sys} (h : Reach initSys s) : Inv s :=
  inv_reach_from inv_init h

/-! ## Per-step effect on one coroutine's control fields

Every enabled step either leaves the control fields of coroutine `c`
unchanged, or is one of the eight `c`-specific events below with the
listed effect.  This is the workhorse behind the run-level claims. -/

theorem updCo_cos_self (s : Sys) (c : Nat) (co : Co) :
    (updCo s c co).cos c = co := by
  rw [updCo_cos, if_pos rfl]

theorem updCo_cos_ne (s : Sys) (c : Nat) (co : Co) {d : Nat} (hd : ¬ d = c) :
    (updCo s c co).cos d = s.cos d := by
  rw [updCo_cos, if_neg hd]

theorem signal_updCo_cos_self (s : Sys) (c : Nat) (co : Co) :
    ctrlEq ((coroutine_signal_sys (updCo s c co) c).cos c) co := by
  have h := signal_cos_ctrl (updCo s c co) c c
  rwa [updCo_cos_self] at h

theorem signal_updCo_cos_ne (s : Sys) (c : Nat) (co : Co) {d : Nat}
    (hd : ¬ d = c) :
    ctrlEq ((coroutine_signal_sys (updCo s c co) c).cos d) (s.cos d) := by
  have h := signal_cos_ctrl (updCo s c co) c d
  rwa [updCo_cos_ne _ _ _ hd] at h

theorem step_ctrl_cases {s t : Sys} {l : Label} (c : Nat)
    (h : step s l = some t) :
    ctrlEq (t.cos c) (s.cos c) ∨
    (∃ a y r, l = .startCo c a y r ∧ (s.cos c).pc = CoPC.notStarted ∧
      (t.cos c).pc = CoPC.fresh ∧ (t.cos c).running = true ∧
      (t.cos c).arg = a ∧ (t.cos c).yields = y ∧ (t.cos c).retVal = r ∧
      (t.cos c).calls = (s.cos c).calls ∧ (t.cos c).ret = (s.cos c).ret) ∨
    (l = .cancel c ∧ (t.cos c).running = false ∧
      (t.cos c).pc = (s.cos c).pc ∧ (t.cos c).calls = (s.cos c).calls ∧
      (t.cos c).arg = (s.cos c).arg ∧ (t.cos c).ret = (s.cos c).ret ∧
      (t.cos c).retVal = (s.cos c).retVal ∧
      (t.cos c).yields = (s.cos c).yields) ∨
    (l = .enter c ∧ (s.cos c).running = true ∧
      (t.cos c).pc = CoPC.runningBody ∧
      (t.cos c).running = (s.cos c).running ∧
      (t.cos c).arg = (s.cos c).arg ∧ (t.cos c).ret = (s.cos c).ret ∧
      (t.cos c).retVal = (s.cos c).retVal ∧
      (t.cos c).yields = (s.cos c).yields ∧
      (((s.cos c).pc = CoPC.fresh ∧
         (t.cos c).calls = (s.cos c).calls ++ [(c, (s.cos c).arg)]) ∨
       ((s.cos c).pc = CoPC.suspended ∧
         (t.cos c).calls = (s.cos c).calls))) ∨
    (l = .yieldCo c ∧ (s.cos c).pc = CoPC.runningBody ∧
      (t.cos c).pc = CoPC.suspended ∧
      (t.cos c).running = (s.cos c).running ∧
      (t.cos c).arg = (s.cos c).arg ∧ (t.cos c).ret = (s.cos c).ret ∧
      (t.cos c).retVal = (s.cos c).retVal ∧
      (t.cos c).calls = (s.cos c).calls) ∨
    (l = .bodyReturn c ∧ (s.cos c).pc = CoPC.runningBody ∧
      (t.cos c).pc = CoPC.bodyDone ∧
      (t.cos c).running = (s.cos c).running ∧
      (t.cos c).arg = (s.cos c).arg ∧ (t.cos c).ret = (s.cos c).ret ∧
      (t.cos c).retVal = (s.cos c).retVal ∧
      (t.cos c).calls = (s.cos c).calls) ∨
    (l = .storeRet c ∧ (s.cos c).pc = CoPC.bodyDone ∧
      (t.cos c).pc = CoPC.retStored ∧
      (t.cos c).running = (s.cos c).running ∧
      (t.cos c).arg = (s.cos c).arg ∧
      (t.cos c).ret = some ((s.cos c).retVal) ∧
      (t.cos c).retVal = (s.cos c).retVal ∧
      (t.cos c).calls = (s.cos c).calls) ∨
    (l = .clearRunning c ∧ (s.cos c).pc = CoPC.retStored ∧
      (t.cos c).pc = CoPC.finishedYield ∧ (t.cos c).running = false ∧
      (t.cos c).arg = (s.cos c).arg ∧ (t.cos c).ret = (s.cos c).ret ∧
      (t.cos c).retVal = (s.cos c).retVal ∧
      (t.cos c).calls = (s.cos c).calls) ∨
    (l = .finalYield c ∧ (s.cos c).pc = CoPC.finishedYield ∧
      (t.cos c).pc = CoPC.finished ∧
      (t.cos c).running = (s.cos c).running ∧
      (t.cos c).arg = (s.cos c).arg ∧ (t.cos c).ret = (s.cos c).ret ∧
      (t.cos c).retVal = (s.cos c).retVal ∧
      (t.cos c).calls = (s.cos c).calls) := by
  cases l with
  | startCo d a y r =>
    simp only [step] at h
    split at h
    · exact Option.noConfusion h
    · split at h
      · exact Option.noConfusion h
      · next hdest hpc =>
        injection h with h
        subst h
        by_cases hdc : d = c
        · subst hdc
          obtain ⟨h1, h2, h3, h4, h5, h6, h7⟩ :=
            signal_updCo_cos_self s d
              { s.cos d with
                  pc := .fresh, running := true, arg := a, yields := y,
                  retVal := r }
          exact Or.inr (Or.inl ⟨a, y, r, rfl, not_not.mp hpc,
            h1, h7, h3, h6, h5, h2, h4⟩)
        · exact Or.inl (signal_updCo_cos_ne s d _
            (fun hcd => hdc hcd.symm))
  | signal d =>
    simp only [step] at h
    split at h
    · exact Option.noConfusion h
    · injection h with h
      subst h
      exact Or.inl (signal_cos_ctrl s d c)
  | cancel d =>
    simp only [step] at h
    split at h
    · exact Option.noConfusion h
    · injection h with h
      subst h
      by_cases hdc : d = c
      · subst hdc
        obtain ⟨h1, h2, h3, h4, h5, h6, h7⟩ :=
          signal_updCo_cos_self s d { s.cos d with running := false }
        exact Or.inr (Or.inr (Or.inl ⟨rfl, h7, h1, h2, h3, h4, h5, h6⟩))
      · exact Or.inl (signal_updCo_cos_ne s d _
          (fun hcd => hdc hcd.symm))
  | userRef d =>
    simp only [step] at h
    split at h
    · exact Option.noConfusion h
    · injection h with h
      subst h
      exact Or.inl (ref_cos_ctrl s d c)
  | userDeref d =>
    simp only [step] at h
    split at h
    · exact Option.noConfusion h
    · split at h
      · exact Option.noConfusion h
      · injection h with h
        subst h
        exact Or.inl (deref_cos_ctrl s d c)
  | wake =>
    simp only [step] at h
    split at h
    · exact Option.noConfusion h
    · split at h
      · exact Option.noConfusion h
      · injection h with h
        subst h
        exact Or.inl (ctrlEq_refl _)
  | takeNull =>
    simp only [step] at h
    split at h
    · exact Option.noConfusion h
    · injection h with h
      subst h
      exact Or.inl (nextco_cos_ctrl s none c)
  | enter d =>
    simp only [step] at h
    split at h
    · exact Option.noConfusion h
    · next hw =>
      split at h
      · exact Option.noConfusion h
      · next hrun =>
        split at h
        · next hpc =>
          injection h with h
          subst h
          by_cases hdc : d = c
          · subst hdc
            refine Or.inr (Or.inr (Or.inr (Or.inl
              ⟨rfl, by simpa using hrun, ?_⟩)))
            simp [updCo_cos_self, hpc]
          · exact Or.inl (by
              rw [updCo_cos_ne _ _ _ (fun hcd => hdc hcd.symm)]
              exact ctrlEq_refl _)
        · split at h
          · next hpc =>
            injection h with h
            subst h
            by_cases hdc : d = c
            · subst hdc
              refine Or.inr (Or.inr (Or.inr (Or.inl
                ⟨rfl, by simpa using hrun, ?_⟩)))
              simp [updCo_cos_self, hpc]
            · exact Or.inl (by
                rw [updCo_cos_ne _ _ _ (fun hcd => hdc hcd.symm)]
                exact ctrlEq_refl _)
          · exact Option.noConfusion h
  | skipEnter d =>
    simp only [step] at h
    split at h
    · exact Option.noConfusion h
    · split at h
      · exact Option.noConfusion h
      · injection h with h
        subst h
        exact Or.inl (ctrlEq_refl _)
  | yieldCo d =>
    simp only [step] at h
    split at h
    · exact Option.noConfusion h
    · split at h
      · exact Option.noConfusion h
      · split at h
        · exact Option.noConfusion h
        · rename_i hpc hy
          injection h with h
          subst h
          by_cases hdc : d = c
          · subst hdc
            refine Or.inr (Or.inr (Or.inr (Or.inr (Or.inl
              ⟨rfl, not_not.mp hpc, ?_⟩))))
            simp [updCo_cos_self]
          · exact Or.inl (by
              rw [updCo_cos_ne _ _ _ (fun hcd => hdc hcd.symm)]
              exact ctrlEq_refl _)
  | bodyReturn d =>
    simp only [step] at h
    split at h
    · exact Option.noConfusion h
    · split at h
      · exact Option.noConfusion h
      · split at h
        · exact Option.noConfusion h
        · rename_i hpc hy
          injection h with h
          subst h
          by_cases hdc : d = c
          · subst hdc
            refine Or.inr (Or.inr (Or.inr (Or.inr (Or.inr (Or.inl
              ⟨rfl, not_not.mp hpc, ?_⟩)))))
            simp [updCo_cos_self]
          · exact Or.inl (by
              rw [updCo_cos_ne _ _ _ (fun hcd => hdc hcd.symm)]
              exact ctrlEq_refl _)
  | storeRet d =>
    simp only [step] at h
    split at h
    · exact Option.noConfusion h
    · split at h
      · exact Option.noConfusion h
      · rename_i hpc
        injection h with h
        subst h
        by_cases hdc : d = c
        · subst hdc
          refine Or.inr (Or.inr (Or.inr (Or.inr (Or.inr (Or.inr (Or.inl
            ⟨rfl, not_not.mp hpc, ?_⟩))))))
          simp [updCo_cos_self]
        · exact Or.inl (by
            rw [updCo_cos_ne _ _ _ (fun hcd => hdc hcd.symm)]
            exact ctrlEq_refl _)
  | clearRunning d =>
    simp only [step] at h
    split at h
    · exact Option.noConfusion h
    · split at h
      · exact Option.noConfusion h
      · rename_i hpc
        injection h with h
        subst h
        by_cases hdc : d = c
        · subst hdc
          refine Or.inr (Or.inr (Or.inr (Or.inr (Or.inr (Or.inr (Or.inr
            (Or.inl ⟨rfl, not_not.mp hpc, ?_⟩)))))))
          simp [updCo_cos_self]
        · exact Or.inl (by
            rw [updCo_cos_ne _ _ _ (fun hcd => hdc hcd.symm)]
            exact ctrlEq_refl _)
  | finalYield d =>
    simp only [step] at h
    split at h
    · exact Option.noConfusion h
    · split at h
      · exact Option.noConfusion h
      · rename_i hpc
        injection h with h
        subst h
        by_cases hdc : d = c
        · subst hdc
          refine Or.inr (Or.inr (Or.inr (Or.inr (Or.inr (Or.inr (Or.inr
            (Or.inr ⟨rfl, not_not.mp hpc, ?_⟩)))))))
          simp [updCo_cos_self]
        · exact Or.inl (by
            rw [updCo_cos_ne _ _ _ (fun hcd => hdc hcd.symm)]
            exact ctrlEq_refl _)
  | takeNext d =>
    simp only [step] at h
    split at h
    · exact Option.noConfusion h
    · injection h with h
      subst h
      exact Or.inl (nextco_cos_ctrl s (some d) c)
  | decCoSig d =>
    simp only [step] at h
    split at h
    · split at h
      · exact Option.noConfusion h
      · injection h with h
        subst h
        left
        unfold updCo ctrlEq
        by_cases hdc : c = d <;> simp [hdc]
    · exact Option.noConfusion h
  | finishCo d =>
    simp only [step] at h
    split at h
    · split at h
      · exact Option.noConfusion h
      · split at h
        · split at h
          · injection h with h
            subst h
            exact Or.inl (deref_cos_ctrl _ d c)
          · injection h with h
            subst h
            exact Or.inl (ctrlEq_refl _)
        · exact Option.noConfusion h
    · exact Option.noConfusion h
  | decThreadSig =>
    simp only [step] at h
    split at h
    · exact Option.noConfusion h
    · injection h with h
      subst h
      exact Or.inl (ctrlEq_refl _)

/-! ## Derived step lemmas -/

/-- Once a started coroutine's `running` is false, no step can restart
it: `coroutine_start` is the only writer of `running := true` and it is
enabled only in the not-started state. -/
theorem dead_stable_step {s t : Sys} {l : Label} (c : Nat)
    (h : step s l = some t)
    (hpc : (s.cos c).pc ≠ CoPC.notStarted)
    (hrun : (s.cos c).running = false) :
    (t.cos c).pc ≠ CoPC.notStarted ∧ (t.cos c).running = false := by
  rcases step_ctrl_cases c h with hc | hstart | hcan | hent | hy | hb | hsr
    | hcr | hfy
  · obtain ⟨h1, -, -, -, -, -, h7⟩ := hc
    rw [h1, h7]
    exact ⟨hpc, hrun⟩
  · obtain ⟨a, y, r, -, hps, -⟩ := hstart
    exact absurd hps hpc
  · obtain ⟨-, hr, hp, -⟩ := hcan
    rw [hp]
    exact ⟨hpc, hr⟩
  · obtain ⟨-, hr, -⟩ := hent
    rw [hrun] at hr
    exact absurd hr (by simp)
  · obtain ⟨-, -, hp, hr, -⟩ := hy
    rw [hp, hr, hrun]
    exact ⟨by simp, rfl⟩
  · obtain ⟨-, -, hp, hr, -⟩ := hb
    rw [hp, hr, hrun]
    exact ⟨by simp, rfl⟩
  · obtain ⟨-, -, hp, hr, -⟩ := hsr
    rw [hp, hr, hrun]
    exact ⟨by simp, rfl⟩
  · obtain ⟨-, -, hp, hr, -⟩ := hcr
    rw [hp, hr]
    exact ⟨by simp, rfl⟩
  · obtain ⟨-, -, hp, hr, -⟩ := hfy
    rw [hp, hr, hrun]
    exact ⟨by simp, rfl⟩

theorem dead_stable_reach {s t : Sys} (c : Nat) (h : Reach s t)
    (hpc : (s.cos c).pc ≠ CoPC.notStarted)
    (hrun : (s.cos c).running = false) :
    (t.cos c).pc ≠ CoPC.notStarted ∧ (t.cos c).running = false := by
  induction h with
  | refl => exact ⟨hpc, hrun⟩
  | tail l _ hstep ih => exact dead_stable_step _ hstep ih.1 ih.2

/-- `coroutine_enter` is gated on `co->running` (src/coroutine.c:172):
with `running` false the enter event is not enabled. -/
theorem step_enter_none {s : Sys} {c : Nat}
    (hrun : (s.cos c).running = false) :
    step s (.enter c) = none := by
  simp only [step]
  split
  · rfl
  · split
    · rfl
    · rename_i hr
      exact absurd (not_not.mp hr) (by simp [hrun])

/-- With `running` false the scheduler's pass over `co` skips the enter
and falls through to the accounting (src/coroutine.c:172-175). -/
theorem step_skipEnter_enabled {s : Sys} {c : Nat}
    (hw : s.worker = WPC.checkRun c) (hrun : (s.cos c).running = false) :
    step s (.skipEnter c) = some { s with worker := .afterEnter c } := by
  simp only [step]
  rw [if_neg (by simp [hw]), if_neg (by simp [hrun])]

/-- When `dec_and_test` on the coroutine's counter reached zero, the
locked section removes it from the ready list and drops the list's
reference (src/coroutine.c:177-182): afterwards it is not queued. -/
theorem step_finishCo_zero_dequeues {s t : Sys} {c : Nat} {nxt : Option Nat}
    (hw : s.worker = WPC.afterDec c nxt true)
    (hnd : s.readyList.Nodup)
    (h : step s (.finishCo c) = some t) :
    c ∉ t.readyList := by
  obtain ⟨cos, rl, ts, w⟩ := s
  subst hw
  simp only [step] at h
  rw [if_neg (by simp)] at h
  split at h
  · injection h with h
    subst h
    show c ∉ (coroutine_deref_sys
      { cos := cos, readyList := rl.erase c, threadSignaled := ts,
        worker := WPC.afterDec c nxt true } c).readyList
    rw [deref_readyList]
    split
    · intro hc
      exact hnd.not_mem_erase (List.mem_of_mem_erase hc)
    · exact hnd.not_mem_erase
  · exact Option.noConfusion h

/-- The deref that brings the count to zero destroys the coroutine
(src/coroutine.c:57-61). -/
theorem step_userDeref_destroys {s t : Sys} {c : Nat}
    (h : step s (.userDeref c) = some t)
    (h1 : (s.cos c).refCount = 1) :
    (t.cos c).destroyed = true := by
  simp only [step] at h
  split at h
  · exact Option.noConfusion h
  · split at h
    · exact Option.noConfusion h
    · injection h with h
      subst h
      unfold coroutine_deref_sys
      rw [if_pos h1]
      unfold coroutine_delete_sys
      simp [updCo_cos_self, updCo_cos]

/-- `coroutine_start` fires only from the not-started state and arms the
coroutine with exactly the given argument (src/coroutine.c:86-97). -/
theorem step_start_char {s t : Sys} {c a y r : Nat}
    (h : step s (.startCo c a y r) = some t) :
    (s.cos c).pc = CoPC.notStarted ∧ (t.cos c).arg = a ∧
    (t.cos c).running = true ∧ (t.cos c).pc = CoPC.fresh := by
  simp only [step] at h
  split at h
  · exact Option.noConfusion h
  · split at h
    · exact Option.noConfusion h
    · rename_i hdest hpc
      injection h with h
      subst h
      obtain ⟨h1, h2, h3, h4, h5, h6, h7⟩ :=
        signal_updCo_cos_self s c
          { s.cos c with
              pc := .fresh, running := true, arg := a, yields := y,
              retVal := r }
      exact ⟨not_not.mp hpc, h3, h7, h1⟩

/-- The first entry of a freshly started coroutine lands in the
trampoline, which invokes `co->fun(co, co->arg)` exactly once
(src/coroutine.c:63-75). -/
theorem step_enter_fresh {s t : Sys} {c : Nat}
    (hpc : (s.cos c).pc = CoPC.fresh)
    (h : step s (.enter c) = some t) :
    (t.cos c).calls = (s.cos c).calls ++ [(c, (s.cos c).arg)] := by
  simp only [step] at h
  split at h
  · exact Option.noConfusion h
  · split at h
    · exact Option.noConfusion h
    · injection h with h
      subst h
      simp [updCo_cos_self]

/-- The trampoline step that clears `running` (src/coroutine.c:81-82)
already sees the return value stored in `co->ret`
(src/coroutine.c:75). -/
theorem step_clearRunning_char {s t : Sys} {c : Nat} (hinv : Inv s)
    (h : step s (.clearRunning c) = some t) :
    (s.cos c).ret = some ((s.cos c).retVal) ∧
    (t.cos c).running = false := by
  simp only [step] at h
  split at h
  · exact Option.noConfusion h
  · split at h
    · exact Option.noConfusion h
    · rename_i hw hpc
      injection h with h
      subst h
      refine ⟨(hinv.2 c).2.2 (Or.inl (not_not.mp hpc)), ?_⟩
      simp [updCo_cos_self]

/-! ## N-fold signalling (claim C3) -/

/-- `N` back-to-back `coroutine_signal(co)` calls with no intervening
scheduler execution. -/
def signalN (s : Sys) (c : Nat) : Nat → Sys
  | 0 => s
  | n + 1 => coroutine_signal_sys (signalN s c n) c

theorem signal_mem_fx {s : Sys} {c : Nat} (h : c ∈ s.readyList) :
    (coroutine_signal_sys s c).readyList = s.readyList ∧
    ((coroutine_signal_sys s c).cos c).refCount = (s.cos c).refCount ∧
    ((coroutine_signal_sys s c).cos c).signaled = (s.cos c).signaled + 1 ∧
    (coroutine_signal_sys s c).threadSignaled = s.threadSignaled + 1 := by
  unfold coroutine_signal_sys updCo
  simp [h]

theorem signal_notmem_fx {s : Sys} {c : Nat} (h : c ∉ s.readyList) :
    (coroutine_signal_sys s c).readyList = s.readyList ++ [c] ∧
    ((coroutine_signal_sys s c).cos c).refCount = (s.cos c).refCount + 1 ∧
    ((coroutine_signal_sys s c).cos c).signaled = (s.cos c).signaled + 1 ∧
    (coroutine_signal_sys s c).threadSignaled = s.threadSignaled + 1 := by
  unfold coroutine_signal_sys updCo
  simp [h]

theorem signalN_fx (s : Sys) (c : Nat) (h : c ∉ s.readyList) (n : Nat) :
    (signalN s c (n + 1)).readyList = s.readyList ++ [c] ∧
    ((signalN s c (n + 1)).cos c).refCount = (s.cos c).refCount + 1 ∧
    ((signalN s c (n + 1)).cos c).signaled = (s.cos c).signaled + (n + 1) ∧
    (signalN s c (n + 1)).threadSignaled = s.threadSignaled + (n + 1) := by
  induction n with
  | zero => simpa [signalN] using signal_notmem_fx h
  | succ n ih =>
    obtain ⟨h1, h2, h3, h4⟩ := ih
    have hmem : c ∈ (signalN s c (n + 1)).readyList := by
      rw [h1]
      simp
    obtain ⟨g1, g2, g3, g4⟩ := signal_mem_fx hmem
    have hstep : signalN s c (n + 2) =
        coroutine_signal_sys (signalN s c (n + 1)) c := rfl
    refine ⟨?_, ?_, ?_, ?_⟩
    · rw [hstep, g1, h1]
    · rw [hstep, g2, h2]
    · rw [hstep, g3, h3]
      ring
    · rw [hstep, g4, h4]
      ring

/-! ## Claim theorems for the scheduler runs -/

/-- C1: for every coroutine created, started once with
`coroutine_start(co, fun, arg)`, and driven by the scheduler, the user
function is invoked at most once along any run (and exactly once by the
first entry of the started coroutine); every invocation passes exactly
the coroutine itself and the `arg` recorded by start (`arg` is written
by no other event, and start fires only from the not-started state, so
at most once); and the trampoline step that sets `running := false`
already has the function's return value stored in `co->ret`. -/
theorem coroutine_fun_invoked_once_with_start_args :
    ∀ s, Reach initSys s → ∀ c : Nat,
      ((s.cos c).calls = [] ∨ (s.cos c).calls = [(c, (s.cos c).arg)]) ∧
      (∀ a y r t, step s (.startCo c a y r) = some t →
        (s.cos c).pc = CoPC.notStarted ∧ (t.cos c).arg = a ∧
        (t.cos c).running = true) ∧
      (∀ l t, step s l = some t → (∀ a y r, l ≠ Label.startCo c a y r) →
        (t.cos c).arg = (s.cos c).arg) ∧
      (∀ t, (s.cos c).pc = CoPC.fresh → step s (.enter c) = some t →
        (t.cos c).calls = [(c, (s.cos c).arg)]) ∧
      (∀ l t, step s l = some t → l ≠ Label.enter c →
        (t.cos c).calls = (s.cos c).calls) ∧
      (∀ t, step s (.clearRunning c) = some t →
        (s.cos c).ret = some ((s.cos c).retVal) ∧
        (t.cos c).running = false) := by
  intro s hr c
  have hinv := inv_reach hr
  refine ⟨?_, ?_, ?_, ?_, ?_, ?_⟩
  · by_cases hpc : (s.cos c).pc = CoPC.notStarted ∨ (s.cos c).pc = CoPC.fresh
    · exact Or.inl ((hinv.2 c).1 hpc)
    · push_neg at hpc
      exact Or.inr ((hinv.2 c).2.1 hpc.1 hpc.2)
  · intro a y r t h
    obtain ⟨h1, h2, h3, -⟩ := step_start_char h
    exact ⟨h1, h2, h3⟩
  · intro l t h hne
    rcases step_ctrl_cases c h with hc | hstart | hcan | hent | hy | hb
      | hsr | hcr | hfy
    · exact hc.2.2.1
    · obtain ⟨a, y, r, heq, -⟩ := hstart
      exact absurd heq (hne a y r)
    · exact hcan.2.2.2.2.1
    · exact hent.2.2.2.2.1
    · exact hy.2.2.2.2.1
    · exact hb.2.2.2.2.1
    · exact hsr.2.2.2.2.1
    · exact hcr.2.2.2.2.1
    · exact hfy.2.2.2.2.1
  · intro t hpc h
    have hcalls := step_enter_fresh hpc h
    rw [(hinv.2 c).1 (Or.inr hpc)] at hcalls
    simpa using hcalls
  · intro l t h hne
    rcases step_ctrl_cases c h with hc | hstart | hcan | hent | hy | hb
      | hsr | hcr | hfy
    · exact hc.2.1
    · obtain ⟨a, y, r, heq, hrest⟩ := hstart
      exact hrest.2.2.2.2.2.2.1
    · exact hcan.2.2.2.1
    · exact absurd hent.1 hne
    · exact hy.2.2.2.2.2.2.2
    · exact hb.2.2.2.2.2.2.2
    · exact hsr.2.2.2.2.2.2.2
    · exact hcr.2.2.2.2.2.2.2
    · exact hfy.2.2.2.2.2.2.2
  · intro t h
    exact step_clearRunning_char hinv h

/-- C3: `coroutine_signal` is idempotent with respect to enqueueing:
`N ≥ 1` consecutive signals on a coroutine that is not queued enqueue it
exactly once at the tail, take exactly one list reference, and leave
`signaled(co)` counting all `N` (and `signaled(thread)` likewise); and
along any reachable state a coroutine occurs at most once in the ready
list. -/
theorem coroutine_signal_enqueue_once :
    (∀ (s : Sys) (c N : Nat), 1 ≤ N → c ∉ s.readyList →
      (signalN s c N).readyList = s.readyList ++ [c] ∧
      (signalN s c N).readyList.count c = 1 ∧
      ((signalN s c N).cos c).refCount = (s.cos c).refCount + 1 ∧
      ((signalN s c N).cos c).signaled = (s.cos c).signaled + N ∧
      (signalN s c N).threadSignaled = s.threadSignaled + N) ∧
    (∀ s : Sys, Reach initSys s → ∀ c : Nat, s.readyList.count c ≤ 1) := by
  constructor
  · intro s c N hN hmem
    obtain ⟨n, rfl⟩ : ∃ n, N = n + 1 :=
      ⟨N - 1, (Nat.succ_pred_eq_of_pos hN).symm⟩
    obtain ⟨h1, h2, h3, h4⟩ := signalN_fx s c hmem n
    refine ⟨h1, ?_, h2, h3, h4⟩
    rw [h1, List.count_append]
    simp [List.count_eq_zero.2 hmem]
  · intro s hr c
    exact List.nodup_iff_count_le_one.mp (inv_reach hr).1 c

/-- C4: after `coroutine_cancel(co)` (which leaves `running = false` on
a started coroutine), the scheduler never enters the coroutine again:
`running` stays false forever, the enter event is permanently disabled,
the scheduler's pass over it takes the skip branch, the drain that sees
its signal counter reach zero removes it from the ready list, and the
deref that brings its reference count to zero destroys it. -/
theorem coroutine_cancel_never_entered_again :
    ∀ s c, Reach initSys s →
    (s.cos c).pc ≠ CoPC.notStarted → (s.cos c).running = false →
    (∀ t, Reach s t →
      (t.cos c).running = false ∧ step t (.enter c) = none) ∧
    (∀ t, Reach s t → t.worker = WPC.checkRun c →
      step t (.skipEnter c) = some { t with worker := .afterEnter c }) ∧
    (∀ t u nxt, Reach s t → t.worker = WPC.afterDec c nxt true →
      step t (.finishCo c) = some u → c ∉ u.readyList) ∧
    (∀ t u, Reach s t → step t (.userDeref c) = some u →
      (t.cos c).refCount = 1 → (u.cos c).destroyed = true) := by
  intro s c hr hpc hrun
  refine ⟨?_, ?_, ?_, ?_⟩
  · intro t ht
    obtain ⟨-, hr2⟩ := dead_stable_reach c ht hpc hrun
    exact ⟨hr2, step_enter_none hr2⟩
  · intro t ht hw
    exact step_skipEnter_enabled hw (dead_stable_reach c ht hpc hrun).2
  · intro t u nxt ht hw hstep
    exact step_finishCo_zero_dequeues hw
      (inv_reach_from (inv_reach hr) ht).1 hstep
  · intro t u ht hstep h1
    exact step_userDeref_destroys hstep h1

/-! ## The worker loop as a function (claim C2)

For the refinement comparison, the loop structure of
`coroutine_thread_routine` (src/coroutine.c:158-198) is transcribed as a
fuelled function over the system state, with the context switch into
user code abstracted by an `enter` oracle.  `spec_inner_while`,
`spec_drain`, `spec_routine` transcribe the spec's §4.4 pseudocode over
the same state, and `spec_producer` its producer line.  The code version
returns `none` when the `BUG_ON` in the locked section fires (the
pseudocode has no assertion); `stopping` is the value the loop reads
from `thread->stopping` (no stop event exists in this model, so it is a
constant); a park with no pending signal returns the state unchanged
(the worker stays asleep). -/

/-- Inner `while (co != NULL)` loop of the code
(src/coroutine.c:171-192). -/
def code_inner_while (enter : Sys → Nat → Sys) :
    Nat → Sys → Option Nat → Option Sys
  | _, s, none => some s
  | 0, s, some _ => some s
  | f + 1, s, some c =>
    let s1 := if (s.cos c).running then enter s c else s
    let r := coroutine_thread_next_coroutine s1 (some c)
    let zero := (r.2.cos c).signaled == 1
    let s3 := updCo r.2 c
      { r.2.cos c with signaled := (r.2.cos c).signaled - 1 }
    if c ∈ s3.readyList then
      let s4 := if zero
        then coroutine_deref_sys
          { s3 with readyList := s3.readyList.erase c } c
        else { s3 with readyList := s3.readyList.erase c ++ [c] }
      code_inner_while enter f s4 r.1
    else none

/-- Inner drain loop of the code: `for(;;) { co = next(NULL); while ...;
if dec_and_test(thread->signaled) break; }` (src/coroutine.c:169-195). -/
def code_drain (enter : Sys → Nat → Sys) : Nat → Nat → Sys → Option Sys
  | 0, _, s => some s
  | fo + 1, fi, s =>
    let r := coroutine_thread_next_coroutine s none
    match code_inner_while enter fi r.2 r.1 with
    | none => none
    | some s2 =>
      let zero := s2.threadSignaled == 1
      let s3 := { s2 with threadSignaled := s2.threadSignaled - 1 }
      if zero then some s3 else code_drain enter fo fi s3

/-- Outer loop of `coroutine_thread_routine` (src/coroutine.c:164-196):
park until `stopping || signaled`, exit on stopping, else drain. -/
def code_routine (enter : Sys → Nat → Sys) (stopping : Bool) :
    Nat → Nat → Nat → Sys → Option Sys
  | 0, _, _, s => some s
  | f + 1, fd, fi, s =>
    if stopping then some s
    else if s.threadSignaled = 0 then some s
    else
      match code_drain enter fd fi s with
      | none => none
      | some t => code_routine enter stopping f fd fi t

/-- The spec's §4.4 inner while loop, as worded: enter if running; fetch
the next ready coroutine; `dec_and_test` the coroutine's counter — on
zero remove it from the ready list and deref it, otherwise move it to
the tail. -/
def spec_inner_while (enter : Sys → Nat → Sys) :
    Nat → Sys → Option Nat → Sys
  | _, s, none => s
  | 0, s, some _ => s
  | f + 1, s, some c =>
    let s1 := if (s.cos c).running then enter s c else s
    let r := coroutine_thread_next_coroutine s1 (some c)
    let zero := (r.2.cos c).signaled == 1
    let s3 := updCo r.2 c
      { r.2.cos c with signaled := (r.2.cos c).signaled - 1 }
    let s4 := if zero
      then coroutine_deref_sys
        { s3 with readyList := s3.readyList.erase c } c
      else { s3 with readyList := s3.readyList.erase c ++ [c] }
    spec_inner_while enter f s4 r.1

/-- The spec's §4.4 drain: run the while loop from `next_ready(null)`,
then `dec_and_test(thread.signaled)`; break the inner loop exactly on
zero. -/
def spec_drain (enter : Sys → Nat → Sys) : Nat → Nat → Sys → Sys
  | 0, _, s => s
  | fo + 1, fi, s =>
    let r := coroutine_thread_next_coroutine s none
    let s2 := spec_inner_while enter fi r.2 r.1
    let zero := s2.threadSignaled == 1
    let s3 := { s2 with threadSignaled := s2.threadSignaled - 1 }
    if zero then s3 else spec_drain enter fo fi s3

/-- The spec's §4.4 outer loop: park until stopping or
`thread.signaled > 0`; exit if stopping; drain; repeat. -/
def spec_routine (enter : Sys → Nat → Sys) (stopping : Bool) :
    Nat → Nat → Nat → Sys → Sys
  | 0, _, _, s => s
  | f + 1, fd, fi, s =>
    if stopping then s
    else if s.threadSignaled = 0 then s
    else spec_routine enter stopping f fd fi (spec_drain enter fd fi s)

/-- The producer as the spec words it (§4.4 "Signaling correctness"):
`inc signaled(co)` → enqueue-if-absent under lock (take a reference,
append at the tail) → `inc signaled(thread)` → wake. -/
def spec_producer (s : Sys) (c : Nat) : Sys :=
  let s1 := updCo s c { s.cos c with signaled := (s.cos c).signaled + 1 }
  let s2 :=
    if c ∈ s1.readyList then s1
    else
      { updCo s1 c
          { s1.cos c with refCount := (s1.cos c).refCount + 1 } with
          readyList := s1.readyList ++ [c] }
  { s2 with threadSignaled := s2.threadSignaled + 1 }

theorem inner_refines (enter : Sys → Nat → Sys) :
    ∀ (f : Nat) (s : Sys) (c : Option Nat) (t : Sys),
      code_inner_while enter f s c = some t →
      spec_inner_while enter f s c = t := by
  intro f
  induction f with
  | zero =>
    intro s c t h
    cases c with
    | none => injection h
    | some c => injection h
  | succ f ih =>
    intro s c t h
    cases c with
    | none => injection h
    | some c =>
      simp only [code_inner_while] at h
      simp only [spec_inner_while]
      split at h
      · rename_i hr
        rw [if_pos hr]
        split at h
        · exact ih _ _ _ h
        · exact Option.noConfusion h
      · rename_i hr
        rw [if_neg hr]
        split at h
        · exact ih _ _ _ h
        · exact Option.noConfusion h

theorem drain_refines (enter : Sys → Nat → Sys) :
    ∀ (fo fi : Nat) (s t : Sys),
      code_drain enter fo fi s = some t → spec_drain enter fo fi s = t := by
  intro fo
  induction fo with
  | zero =>
    intro fi s t h
    injection h
  | succ fo ih =>
    intro fi s t h
    simp only [code_drain] at h
    split at h
    · exact Option.noConfusion h
    · rename_i s2 hw
      simp only [spec_drain, inner_refines enter fi _ _ _ hw]
      split at h
      · rename_i hz
        injection h with h
        rw [← h, if_pos hz]
      · rename_i hz
        rw [if_neg hz]
        exact ih _ _ _ h

theorem routine_refines (enter : Sys → Nat → Sys) (stopping : Bool) :
    ∀ (f fd fi : Nat) (s t : Sys),
      code_routine enter stopping f fd fi s = some t →
      spec_routine enter stopping f fd fi s = t := by
  intro f
  induction f with
  | zero =>
    intro fd fi s t h
    injection h
  | succ f ih =>
    intro fd fi s t h
    simp only [code_routine] at h
    split at h
    · next hstop =>
      injection h with h
      rw [← h]
      simp only [spec_routine]
      rw [if_pos hstop]
    · split at h
      · next hs hz =>
        injection h with h
        rw [← h]
        simp only [spec_routine]
        rw [if_neg hs, if_pos hz]
      · next hs hz =>
        simp only [spec_routine]
        rw [if_neg hs, if_neg hz]
        split at h
        · exact Option.noConfusion h
        · rename_i u hd
          rw [drain_refines enter fd fi s u hd]
          exact ih _ _ _ _ h

theorem signal_eq_spec_producer (s : Sys) (c : Nat) :
    coroutine_signal_sys s c = spec_producer s c := by
  obtain ⟨cos, rl, ts, w⟩ := s
  unfold coroutine_signal_sys spec_producer updCo
  by_cases h : c ∈ rl <;>
    simp only [h, if_true, if_false, reduceIte] <;>
    congr 1 <;>
    funext j <;>
    by_cases hj : j = c <;>
    simp [hj]

/-- C2: the worker thread's loop implements the spec's §4.4 drain
algorithm: wherever the transcription of `coroutine_thread_routine`
terminates without a `BUG_ON`, it computes exactly the state of the
spec's pseudocode (same parking condition, the same enter-if-running,
`dec_and_test`-then-dequeue-or-requeue per coroutine, and the inner
drain loop left exactly when `dec_and_test(thread.signaled)` hits zero);
and `coroutine_signal` is exactly the spec's producer:
inc `signaled(co)`, enqueue-if-absent taking a reference, inc
`signaled(thread)`, wake. -/
theorem thread_routine_refines_spec_drain :
    (∀ (enter : Sys → Nat → Sys) (stopping : Bool) (f fd fi : Nat)
       (s t : Sys),
      code_routine enter stopping f fd fi s = some t →
      spec_routine enter stopping f fd fi s = t) ∧
    (∀ (s : Sys) (c : Nat), coroutine_signal_sys s c = spec_producer s c) :=
  ⟨fun enter stopping f fd fi s t h =>
    routine_refines enter stopping f fd fi s t h,
   signal_eq_spec_producer⟩

/-! ## Claims C5, C6, C7 (destruction, alignment, creation) -/

/-- Concrete destruction-time state whose list link is *not* empty: the
coroutine is still queued.  Used to separate `coroutine_delete` from the
claimed variant. -/
def delCoQueued : DelCo :=
  { id := 0, magic := COROUTINE_MAGIC, refCount := 0, stackAddr := 0,
    linkEmpty := false,
    mem := fun a =>
      if a = 0 then COROUTINE_STACK_BOTTOM_MAGIC
      else if a = 4088 then COROUTINE_STACK_TOP_MAGIC
      else 0 }

/-- C5 counterexample: `coroutine_delete` does *not* assert that the
list link is empty — on a still-queued coroutine (non-empty link) the
code proceeds to remove it defensively and free it, while the claimed
behaviour would trip an assertion there. -/
theorem coroutine_delete_link_assert_cex :
    coroutine_delete delCoQueued [0] =
      some { readyList := [], freed := [.stack, .obj] } ∧
    coroutine_delete_as_claimed delCoQueued [0] = none := by
  constructor <;> rfl

/-- C5 (amended): the final `coroutine_deref` — the one that brings
`ref_count` to zero — triggers destruction, which asserts the coroutine
magic, both stack magic words and that the count is zero, removes the
coroutine from the ready list defensively under `list_lock`
(`list_del_init`, with no assertion on the link), then frees the stack
and then the object; a magic violation is fatal instead, and a non-final
deref only decrements. -/
theorem coroutine_delete_final_deref :
    ∀ (co : DelCo) (l : List Nat),
      (co.refCount = 1 → co.magic = COROUTINE_MAGIC →
        co.mem co.stackAddr = COROUTINE_STACK_BOTTOM_MAGIC →
        co.mem (co.stackAddr + COROUTINE_STACK_SIZE - WORD) =
          COROUTINE_STACK_TOP_MAGIC →
        coroutine_deref co l = some (.destroyed
          { readyList := l.erase co.id, freed := [.stack, .obj] })) ∧
      (co.refCount = 1 → co.magic ≠ COROUTINE_MAGIC →
        coroutine_deref co l = none) ∧
      (2 ≤ co.refCount →
        coroutine_deref co l = some (.alive (co.refCount - 1))) := by
  intro co l
  refine ⟨?_, ?_, ?_⟩
  · intro h1 hm hb ht
    unfold coroutine_deref coroutine_delete
    rw [if_pos h1]
    simp [hm, hb, ht]
  · intro h1 hm
    unfold coroutine_deref coroutine_delete
    rw [if_pos h1]
    simp [hm]
  · intro h2
    unfold coroutine_deref
    rw [if_neg (by omega)]

/-- C6: `STACK_SIZE` is a power of two and the alignment check at
creation (`BUG_ON(stack & (PAGE_SIZE-1))`, src/coroutine.c:22) suffices
for the trampoline's mask: masking any interior stack pointer with
`~(STACK_SIZE-1)` (i.e. shifting down and up by `STACK_SHIFT`,
src/coroutine.c:66) recovers the stack base, and hence the self-pointer
load at `base + STACK_SIZE - 2*word` reads the stored coroutine
pointer. -/
theorem create_alignment_check_sufficient :
    ∀ (stackAddr rsp coAddr : Nat) (mem : Nat → Nat),
      createAlignCheck stackAddr = 0 →
      stackAddr ≤ rsp → rsp < stackAddr + COROUTINE_STACK_SIZE →
      (∃ k, COROUTINE_STACK_SIZE = 2 ^ k) ∧
      trampolineStackBase rsp = stackAddr ∧
      (mem (stackAddr + COROUTINE_STACK_SIZE - 2 * WORD) = coAddr →
        trampolineSelf mem rsp = coAddr) := by
  intro stackAddr rsp coAddr mem hchk hlo hhi
  have hbase := stackBase_of_aligned (align_mod_of_check hchk) hlo hhi
  refine ⟨⟨COROUTINE_STACK_SHIFT, rfl⟩, hbase, ?_⟩
  intro hm
  unfold trampolineSelf
  rw [hbase]
  exact hm

/-- C7: `coroutine_create` either returns NULL — when the object
allocation fails, or when the stack allocation fails after freeing the
partially-built object — or returns a coroutine whose stack bottom word
holds the bottom sentinel, whose top word holds the top sentinel, whose
word at `stack_top - 2*word` points back at the coroutine, and whose
refcount is 1, `signaled` 0, list link empty (and magic set, alignment
checked). -/
theorem coroutine_create_postcondition :
    ∀ (coAlloc stackAlloc : Option Nat) (mem0 : Nat → Nat),
      (coroutine_create coAlloc stackAlloc mem0 = .nullCoAllocFailed ↔
        coAlloc = none) ∧
      (∀ a, coAlloc = some a → stackAlloc = none →
        coroutine_create coAlloc stackAlloc mem0 = .nullStackAllocFailed a) ∧
      (∀ co, coroutine_create coAlloc stackAlloc mem0 = .ok co →
        co.mem co.stackAddr = COROUTINE_STACK_BOTTOM_MAGIC ∧
        co.mem (co.stackAddr + COROUTINE_STACK_SIZE - WORD) =
          COROUTINE_STACK_TOP_MAGIC ∧
        co.mem (co.stackAddr + COROUTINE_STACK_SIZE - 2 * WORD) =
          co.coAddr ∧
        co.refCount = 1 ∧ co.signaled = 0 ∧ co.listLinkEmpty = true ∧
        co.magic = COROUTINE_MAGIC ∧
        createAlignCheck co.stackAddr = 0) := by
  intro coAlloc stackAlloc mem0
  refine ⟨?_, ?_, ?_⟩
  · cases coAlloc with
    | none => simp [coroutine_create]
    | some a =>
      cases stackAlloc with
      | none => simp [coroutine_create]
      | some b =>
        simp only [coroutine_create]
        split <;> simp
  · intro a ha hb
    subst ha
    subst hb
    rfl
  · intro co hok
    cases coAlloc with
    | none => exact absurd hok (by simp [coroutine_create])
    | some a =>
      cases stackAlloc with
      | none => exact absurd hok (by simp [coroutine_create])
      | some b =>
        simp only [coroutine_create] at hok
        split at hok
        · exact CreateResult.noConfusion hok
        · rename_i halign
          injection hok with hok
          subst hok
          rw [not_not] at halign
          have hsz : COROUTINE_STACK_SIZE = 4096 := rfl
          have hw : WORD = 8 := rfl
          refine ⟨?_, ?_, ?_, rfl, rfl, rfl, rfl, halign⟩ <;>
            simp [memWrite, hsz, hw]

/-! ## Claims C8, C9, C10 -/

theorem coroutine_wait_aux (obs : Nat → Bool) (ret : Nat) :
    ∀ (k i fuel : Nat), (∀ j, j < k → obs (i + j) = true) →
      obs (i + k) = false → k < fuel →
      coroutine_wait obs ret fuel i = some (i + k, ret) := by
  intro k
  induction k with
  | zero =>
    intro i fuel h0 hk hf
    cases fuel with
    | zero => exact absurd hf (by omega)
    | succ f =>
      rw [Nat.add_zero] at hk ⊢
      simp [coroutine_wait, hk]
  | succ k ih =>
    intro i fuel h0 hk hf
    cases fuel with
    | zero => exact absurd hf (by omega)
    | succ f =>
      have h1 : obs i = true := by
        have := h0 0 (by omega)
        simpa using this
      have harith : i + 1 + k = i + (k + 1) := by omega
      have hrec := ih (i + 1) f
        (fun j hj => by
          have := h0 (j + 1) (by omega)
          simpa [Nat.add_assoc, Nat.add_comm 1 j] using this)
        (by rw [harith]; exact hk)
        (by omega)
      simp only [coroutine_wait, h1, if_true]
      rw [hrec, harith]

/-- C8: `coroutine_wait(self, other)` loops `while (other->running)
coroutine_yield(self)` and then returns `other->ret`
(src/coroutine.c:200-205): it yields exactly once per iteration that
observes `running` true, and returns `ret` at the first observation of
`running` false — in particular, when `other` has already finished it
returns immediately with zero yields. -/
theorem coroutine_wait_yields_while_running :
    ∀ (obs : Nat → Bool) (ret k fuel : Nat),
      (∀ j, j < k → obs j = true) → obs k = false → k < fuel →
      coroutine_wait obs ret fuel 0 = some (k, ret) ∧
      (obs 0 = false → ∀ f, coroutine_wait obs ret (f + 1) 0 = some (0, ret)) := by
  intro obs ret k fuel h0 hk hf
  constructor
  · have := coroutine_wait_aux obs ret k 0 fuel
      (fun j hj => by simpa using h0 j hj) (by simpa using hk) hf
    simpa using this
  · intro hz f
    have := coroutine_wait_aux obs ret 0 0 (f + 1)
      (fun j hj => absurd hj (by omega)) (by simpa using hz) (by omega)
    simpa using this

/-- A 70-character host name. -/
def host70 : List Char := List.replicate 70 'a'

/-- C9 counterexample: with a 64-byte host buffer (the size itself comes
from the missing `tlb_server.h`; the outcome is the same for every
size), a 70-character host does not fit, yet `tlb_server_start` does
*not* return EINVAL: the `snprintf(...) != strlen(host)` check never
fires because `snprintf` returns the untruncated length, so the function
proceeds — here all external calls succeed and it returns 0 with the
socket open, the listen thread started, and a silently truncated
host. -/
theorem tlb_server_start_truncation_cex :
    64 - 1 < host70.length ∧
    (tlb_server_start 64 host70 (fun _ => 0) 0 none).result =
      ServerStartResult.ok ∧
    (tlb_server_start 64 host70 (fun _ => 0) 0 none).socketOpen = true ∧
    (tlb_server_start 64 host70 (fun _ => 0) 0 none).storedHost ≠ host70 := by
  refine ⟨by decide, rfl, rfl, by decide⟩

/-- C9 (amended): the truncation check in `tlb_server_start`
(src/server.c:110-111) compares `snprintf`'s return value — the length
the full string *would* need — with `strlen(host)`, so it never detects
truncation: the function never returns EINVAL for an over-long host;
instead the host is silently truncated to the buffer and the start
proceeds.  The positive-EINVAL branch is dead code. -/
theorem tlb_server_start_never_einval :
    ∀ (bufSize : Nat) (host : List Char) (listen : Nat → Int)
      (threadStartR : Int) (kthreadCreateR : Option Int),
      (tlb_server_start bufSize host listen threadStartR
          kthreadCreateR).result ≠ ServerStartResult.einval ∧
      (tlb_server_start bufSize host listen threadStartR
          kthreadCreateR).storedHost = host.take (bufSize - 1) := by
  intro bufSize host listen threadStartR kthreadCreateR
  unfold tlb_server_start snprintf_s
  rw [if_neg (by simp)]
  constructor <;>
    (by_cases hr : listen_retry listen 0 5 ≠ 0
     · simp [hr]
     · by_cases ht : threadStartR ≠ 0
       · simp [hr, ht]
       · cases kthreadCreateR <;> simp [hr, ht])

/-- The connection as `tlb_con_create` returns it (src/server.c:49-66):
zeroed, with a fresh coroutine attached and no socket yet. -/
def freshCon : TlbCon :=
  { co := freshConCo, sockSet := false, sockReleased := false }

/-- C10: in the listener loop, a `ksock_accept` failure on a pre-created
connection deletes the connection — its coroutine, created but never
started or signalled, loses its single creation reference and is
destroyed without ever running, and no socket is released since none was
attached — and the loop goes on with the next iteration; whereas a
`tlb_con_create` failure breaks the loop and `listen_thread_stopping` is
set. -/
theorem listen_thread_error_handling :
    ∀ (e : ListenEvent) (rest : List ListenEvent),
      (e.stopSeen = false → e.conCreateOk = true → e.acceptRet ≠ 0 →
        tlb_server_listen_thread_routine (e :: rest) =
          { cons := .rejected (tlb_con_delete freshCon) ::
              (tlb_server_listen_thread_routine rest).cons,
            listenThreadStopping :=
              (tlb_server_listen_thread_routine rest).listenThreadStopping } ∧
        (tlb_con_delete freshCon).co.destroyed = true ∧
        (tlb_con_delete freshCon).co.refCount = 0 ∧
        (tlb_con_delete freshCon).co.entered = false ∧
        (tlb_con_delete freshCon).co.started = false ∧
        (tlb_con_delete freshCon).co.signaled = 0 ∧
        (tlb_con_delete freshCon).sockReleased = false) ∧
      (e.stopSeen = false → e.conCreateOk = false →
        tlb_server_listen_thread_routine (e :: rest) =
          { cons := [], listenThreadStopping := true }) := by
  intro e rest
  constructor
  · intro hs hc ha
    refine ⟨?_, rfl, rfl, rfl, rfl, rfl, rfl⟩
    simp only [tlb_server_listen_thread_routine, hs, hc, ha]
    simp [freshCon, ha]
  · intro hs hc
    simp [tlb_server_listen_thread_routine, hs, hc]

/-! ## Concrete runs and witnesses -/

/-- A run that starts coroutine 0 with argument 5 and a body that
returns 42 without yielding, wakes the worker, enters the coroutine and
lets it run up to the point where the trampoline has stored the return
value but not yet cleared `running`. -/
def c1run : List Label :=
  [.startCo 0 5 0 42, .wake, .takeNull, .enter 0, .bodyReturn 0,
   .storeRet 0]

def c1s : Sys := (applyLabels initSys c1run).getD initSys

theorem c1s_reach : Reach initSys c1s :=
  reach_of_applyLabels c1run initSys c1s rfl

theorem coroutine_fun_invoked_once_with_start_args_witness :
    ((c1s.cos 0).calls = [] ∨
      (c1s.cos 0).calls = [(0, (c1s.cos 0).arg)]) ∧
    (c1s.cos 0).ret = some ((c1s.cos 0).retVal) := by
  have h := coroutine_fun_invoked_once_with_start_args c1s c1s_reach 0
  exact ⟨h.1,
    (h.2.2.2.2.2 ((step c1s (.clearRunning 0)).getD initSys) rfl).1⟩

/-- A single coroutine queued with one pending signal, worker about to
drain. -/
def c2s : Sys :=
  { cos := fun _ => { initCo with signaled := 1, refCount := 2 },
    readyList := [0], threadSignaled := 1, worker := .drainTop }

theorem thread_routine_refines_spec_drain_witness :
    spec_routine (fun s _ => s) false 2 2 2 c2s =
      (code_routine (fun s _ => s) false 2 2 2 c2s).getD initSys :=
  thread_routine_refines_spec_drain.1 (fun s _ => s) false 2 2 2 c2s
    ((code_routine (fun s _ => s) false 2 2 2 c2s).getD initSys) rfl

theorem coroutine_signal_enqueue_once_witness :
    ((signalN initSys 0 3).readyList = initSys.readyList ++ [0] ∧
      (signalN initSys 0 3).readyList.count 0 = 1 ∧
      ((signalN initSys 0 3).cos 0).refCount =
        (initSys.cos 0).refCount + 1 ∧
      ((signalN initSys 0 3).cos 0).signaled =
        (initSys.cos 0).signaled + 3 ∧
      (signalN initSys 0 3).threadSignaled =
        initSys.threadSignaled + 3) ∧
    initSys.readyList.count 0 ≤ 1 :=
  ⟨coroutine_signal_enqueue_once.1 initSys 0 3 (by decide) (by decide),
   coroutine_signal_enqueue_once.2 initSys (Reach.refl initSys) 0⟩

/-- Start coroutine 0, then cancel it before the scheduler runs. -/
def c4run : List Label := [.startCo 0 5 1 7, .cancel 0]

def c4s : Sys := (applyLabels initSys c4run).getD initSys

theorem c4s_reach : Reach initSys c4s :=
  reach_of_applyLabels c4run initSys c4s rfl

theorem coroutine_cancel_never_entered_again_witness :
    (c4s.cos 0).running = false ∧ step c4s (.enter 0) = none := by
  have h := coroutine_cancel_never_entered_again c4s 0 c4s_reach
    (by decide) (by decide)
  exact h.1 c4s (Reach.refl c4s)

/-- A destruction-time coroutine with intact sentinels and one remaining
reference. -/
def delCoLast : DelCo :=
  { id := 0, magic := COROUTINE_MAGIC, refCount := 1, stackAddr := 0,
    linkEmpty := true,
    mem := fun a =>
      if a = 0 then COROUTINE_STACK_BOTTOM_MAGIC
      else if a = 4088 then COROUTINE_STACK_TOP_MAGIC
      else 0 }

theorem coroutine_delete_final_deref_witness :
    coroutine_deref delCoLast [] = some (.destroyed
      { readyList := [], freed := [.stack, .obj] }) :=
  (coroutine_delete_final_deref delCoLast []).1 rfl rfl rfl rfl

def c6mem : Nat → Nat := fun a => if a = 12272 then 77 else 0

theorem create_alignment_check_sufficient_witness :
    trampolineStackBase 8200 = 8192 ∧ trampolineSelf c6mem 8200 = 77 := by
  have h := create_alignment_check_sufficient 8192 8200 77 c6mem
    (by decide) (by decide) (by decide)
  exact ⟨h.2.1, h.2.2 rfl⟩

def c7fallback : CreatedCo :=
  { magic := 0, coAddr := 0, stackAddr := 0, refCount := 0, signaled := 0,
    listLinkEmpty := false, mem := fun _ => 0 }

/-- The coroutine built by a successful creation at object address 11
with a page-aligned stack at 4096. -/
def c7co : CreatedCo :=
  match coroutine_create (some 11) (some 4096) (fun _ => 0) with
  | .ok co => co
  | _ => c7fallback

theorem coroutine_create_postcondition_witness :
    coroutine_create none none (fun _ => 0) =
      CreateResult.nullCoAllocFailed ∧
    coroutine_create (some 500) none (fun _ => 0) =
      CreateResult.nullStackAllocFailed 500 ∧
    c7co.mem c7co.stackAddr = COROUTINE_STACK_BOTTOM_MAGIC ∧
    c7co.refCount = 1 := by
  have h1 := (coroutine_create_postcondition none none (fun _ => 0)).1.mpr rfl
  have h2 := (coroutine_create_postcondition (some 500) none
    (fun _ => 0)).2.1 500 rfl rfl
  have h3 := (coroutine_create_postcondition (some 11) (some 4096)
    (fun _ => 0)).2.2 c7co rfl
  exact ⟨h1, h2, h3.1, h3.2.2.2.1⟩

theorem coroutine_wait_yields_while_running_witness :
    coroutine_wait (fun _ => false) 42 1 0 = some (0, 42) ∧
    coroutine_wait (fun i => decide (i < 2)) 7 5 0 = some (2, 7) := by
  constructor
  · exact (coroutine_wait_yields_while_running (fun _ => false) 42 0 1
      (fun j hj => absurd hj (Nat.not_lt_zero j)) rfl (by decide)).1
  · exact (coroutine_wait_yields_while_running (fun i => decide (i < 2)) 7 2 5
      (fun j hj => decide_eq_true hj) rfl (by decide)).1

def e10 : ListenEvent :=
  { stopSeen := false, conCreateOk := true, acceptRet := -1 }

theorem listen_thread_error_handling_witness :
    tlb_server_listen_thread_routine [e10] =
      { cons := [.rejected (tlb_con_delete freshCon)],
        listenThreadStopping := true } ∧
    (tlb_con_delete freshCon).co.destroyed = true ∧
    (tlb_con_delete freshCon).co.entered = false := by
  have h := (listen_thread_error_handling e10 []).1 rfl rfl (by decide)
  exact ⟨h.1, h.2.1, h.2.2.2.1⟩

end Tlb
